import Mathlib

/-!
Verification of the kiko tropical-cyclone library (`bdeck.py`,
`storm.py`, `season.py`, `utils.py`) against its natural-language
specification.

Modelling conventions:
* Python floats are modelled by exact rationals (`ℚ`).  Every float
  computation in the source that feeds a verified claim is exact (or
  floor-stable) in double precision over the relevant value ranges, so
  rational arithmetic is a faithful model there.
* Python `int(x)` applied to a float truncates toward zero
  (`pyTrunc` below); Python `//` on nonnegative integers is `Nat`
  division.
* Python `datetime.datetime` values are structures of plain numeric
  fields; the library normalises them to UTC, so time zones are
  dropped from the model.
-/

/-- Python `int(x)` applied to a float: truncation toward zero. -/
def pyTrunc (q : ℚ) : ℤ := if 0 ≤ q then ⌊q⌋ else -⌊-q⌋

/-- A Python `datetime.datetime` (UTC / naive). -/
structure PyDateTime where
  year : ℕ
  month : ℕ
  day : ℕ
  hour : ℕ := 0
  minute : ℕ := 0
  second : ℕ := 0
  microsecond : ℕ := 0
deriving DecidableEq, Repr, Inhabited

/-- `calendar.isleap`, which is also Python `datetime`'s
proleptic-Gregorian leap rule. -/
def isleap (y : ℕ) : Bool := y % 4 == 0 && (y % 100 != 0 || y % 400 == 0)

/-- Length of a month in the proleptic Gregorian calendar. -/
def daysInMonth (y m : ℕ) : ℕ :=
  if m = 2 then (if isleap y then 29 else 28)
  else if m = 4 ∨ m = 6 ∨ m = 9 ∨ m = 11 then 30
  else 31

/-- The field ranges accepted by the Python `datetime` constructor. -/
def ValidDateTime (dt : PyDateTime) : Prop :=
  1 ≤ dt.year ∧ dt.year ≤ 9999 ∧ 1 ≤ dt.month ∧ dt.month ≤ 12 ∧
  1 ≤ dt.day ∧ dt.day ≤ daysInMonth dt.year dt.month ∧
  dt.hour < 24 ∧ dt.minute < 60 ∧ dt.second < 60 ∧ dt.microsecond < 1000000

instance (dt : PyDateTime) : Decidable (ValidDateTime dt) := by
  unfold ValidDateTime; infer_instance

/-- The intraday fraction added by `datetime_to_mjd` (utils.py line
35): `(hour + minute/60 + second/3600 + microsecond/3600000000)/24`. -/
def timeFrac (dt : PyDateTime) : ℚ :=
  ((dt.hour : ℚ) + (dt.minute : ℚ) / 60 + (dt.second : ℚ) / 3600 +
    (dt.microsecond : ℚ) / 3600000000) / 24

/-- `utils.datetime_to_mjd` (utils.py lines 5–38), over exact
rationals.  The float products `365.25*(year+4716)` and
`30.6001*(month+1)` are floor-stable in double precision for all valid
datetime years, so the rational model computes the same truncations. -/
def datetime_to_mjd (dt : PyDateTime) : ℚ :=
  -- If January or February, treat as 13th or 14th month of previous year
  let year : ℕ := if dt.month ≤ 2 then dt.year - 1 else dt.year
  let month : ℕ := if dt.month ≤ 2 then dt.month + 12 else dt.month
  let a : ℕ := year / 100
  let b : ℤ := 2 - (a : ℤ) + ((a / 4 : ℕ) : ℤ)
  let jd : ℚ := (pyTrunc (365.25 * ((year : ℚ) + 4716)) : ℚ) +
    (pyTrunc (30.6001 * ((month : ℚ) + 1)) : ℚ) + (dt.day : ℚ) + (b : ℚ) - 1524.5 +
    timeFrac dt
  jd - 2400000.5

/-- The calendar part of `utils.mjd_to_datetime` (utils.py lines
70–80).  Every Python `//` there acts on nonnegative ints for all
Julian day numbers reachable from valid datetimes, where floor
division is `Nat` division; the year is produced as an `ℤ`. -/
def calendarFromJdn (jdInt : ℕ) : ℤ × ℕ × ℕ :=
  let l := jdInt + 68569
  let n := 4 * l / 146097
  let l2 := l - (146097 * n + 3) / 4
  let i := 4000 * (l2 + 1) / 1461001
  let l3 := l2 - 1461 * i / 4 + 31
  let j := 80 * l3 / 2447
  let day := l3 - 2447 * j / 80
  let l4 := j / 11
  let month := j + 2 - 12 * l4
  let year : ℤ := 100 * ((n : ℤ) - 49) + (i : ℤ) + (l4 : ℤ)
  (year, month, day)

/-- `utils.mjd_to_datetime` (utils.py lines 40–82); the result tuple is
`(year, month, day, hours, minutes, seconds, microseconds)`. -/
def mjd_to_datetime (mjd : ℚ) : ℤ × ℕ × ℕ × ℕ × ℕ × ℕ × ℕ :=
  let jd : ℚ := mjd + 2400000.5
  let jdInt : ℤ := pyTrunc jd
  let frac : ℚ := jd - (jdInt : ℚ) + 0.5
  let jdInt : ℤ := if frac ≥ 1 then jdInt + 1 else jdInt
  let frac : ℚ := if frac ≥ 1 then frac - 1 else frac
  let hours : ℤ := pyTrunc (frac * 24)
  let frac : ℚ := frac * 24 - (hours : ℚ)
  let minutes : ℤ := pyTrunc (frac * 60)
  let frac : ℚ := frac * 60 - (minutes : ℚ)
  let seconds : ℤ := pyTrunc (frac * 60)
  let frac : ℚ := frac * 60 - (seconds : ℚ)
  let microseconds : ℤ := pyTrunc (frac * 1000000)
  let ymd := calendarFromJdn jdInt.toNat
  (ymd.1, ymd.2.1, ymd.2.2, hours.toNat, minutes.toNat, seconds.toNat,
    microseconds.toNat)

/-!
Python string primitives.  Python strings index by character, so they
are modelled on `List Char` (`String.data`); the `String` library's
byte-position functions are avoided since they do not reduce well in
the kernel.
-/

/-- Python `str.strip()` on a character list. -/
def listStrip (l : List Char) : List Char :=
  ((l.dropWhile Char.isWhitespace).reverse.dropWhile Char.isWhitespace).reverse

/-- Python `str.strip()`. -/
def pyStrip (s : String) : String := String.mk (listStrip s.data)

/-- Python `s[:-1]` (drop the last character). -/
def pyDropLast (s : String) : String := String.mk s.data.dropLast

/-- Python `s[-1]` (last character).  Python raises `IndexError` on
an empty string; the model returns `' '` instead, so theorems about
whole reads restrict themselves to lines whose `[-1]`-accessed
fields are nonempty, where the two agree. -/
def pyLast (s : String) : Char := s.data.getLastD ' '

/-- Python `s[-n:]` (last `n` characters). -/
def pyTakeRight (s : String) (n : ℕ) : String :=
  String.mk (s.data.drop (s.data.length - n))

/-- Python `s[:n]`. -/
def pyTake (s : String) (n : ℕ) : String := String.mk (s.data.take n)

/-- Python `s[n:]`. -/
def pyDrop (s : String) (n : ℕ) : String := String.mk (s.data.drop n)

/-- Python `s.split(',')`: split on every comma, no merging. -/
def splitCommaAux : List Char → List Char → List (List Char)
  | [], acc => [acc.reverse]
  | c :: rest, acc =>
    if c = ',' then acc.reverse :: splitCommaAux rest []
    else splitCommaAux rest (c :: acc)

/-- Python `s.split(',')`. -/
def pySplitComma (s : String) : List String :=
  (splitCommaAux s.data []).map String.mk

/-- Decimal value of a digit list. -/
def digitsToNat (l : List Char) : ℕ :=
  l.foldl (fun acc c => 10 * acc + (c.toNat - '0'.toNat)) 0

/-- Python `int(s)` on a decimal string: strip surrounding whitespace,
accept an optional sign followed by one or more digits (Python's digit
grouping underscores are not modelled), otherwise raise (`none`). -/
def pyIntOfString (s : String) : Option ℤ :=
  let t := listStrip s.data
  let neg : Bool := t.headD ' ' = '-'
  let core := if t.headD ' ' = '-' ∨ t.headD ' ' = '+' then t.tail else t
  if core.length > 0 ∧ core.all Char.isDigit then
    some (if neg then -(digitsToNat core : ℤ) else (digitsToNat core : ℤ))
  else none

/-- `bdeck._safe_int` (bdeck.py lines 13–17). -/
def _safe_int (s : String) : ℤ := (pyIntOfString s).getD (-999)

/-- `storm.TROPICAL_TYPE`. -/
def TROPICAL_TYPE : List String := ["TD", "TS", "TY", "HU", "ST"]

/-- `storm.NORTHERN_HEMISPHERE_BASIN`. -/
def NORTHERN_HEMISPHERE_BASIN : List String := ["WP", "EP", "CP", "AL", "IO"]

/-- `storm.is_synoptic`. -/
def is_synoptic (time : PyDateTime) : Bool := time.hour % 6 == 0

/-- `storm.is_tropical`. -/
def is_tropical (stype : String) : Bool := TROPICAL_TYPE.contains stype

/-- `storm.Basin`; the source's third constructor is `NIO` (North
Indian Ocean), spelled `NInd` here. -/
inductive Basin
  | WPAC
  | EPAC
  | NInd
  | SHEM
  | ATL
deriving DecidableEq, Repr

/-- `storm.get_basin` (storm.py lines 67–87). -/
def get_basin (longitude latitude : ℚ) : Basin :=
  if latitude < 0 then .SHEM
  else if longitude < 100 then
    (if latitude < 40 then .NInd
     else if longitude < 70 then .ATL else .WPAC)
  else if longitude < 180 then .WPAC
  else if longitude < 240 then .EPAC
  else if longitude > 300 then .ATL
  else .EPAC  -- approximate EPAC/NATL boundary, per the source comment

/-- `storm.BasinACE`; the five per-basin ACE accumulators. -/
structure BasinACE where
  wpac : ℚ := 0
  epac : ℚ := 0
  nind : ℚ := 0
  shem : ℚ := 0
  atl : ℚ := 0
deriving DecidableEq, Repr, Inhabited

/-- `BasinACE.total`. -/
def BasinACE.total (b : BasinACE) : ℚ := b.wpac + b.epac + b.nind + b.shem + b.atl

/-- `BasinACE.set` — despite the name it accumulates (`+=`). -/
def BasinACE.set (b : BasinACE) (basin : Basin) (value : ℚ) : BasinACE :=
  match basin with
  | .WPAC => { b with wpac := b.wpac + value }
  | .EPAC => { b with epac := b.epac + value }
  | .NInd => { b with nind := b.nind + value }
  | .SHEM => { b with shem := b.shem + value }
  | .ATL => { b with atl := b.atl + value }

/-- `BasinACE.get`. -/
def BasinACE.get (b : BasinACE) (basin : Basin) : ℚ :=
  match basin with
  | .WPAC => b.wpac
  | .EPAC => b.epac
  | .NInd => b.nind
  | .SHEM => b.shem
  | .ATL => b.atl

/-- `storm.Storm`: the constructor-stored arrays plus the `flags`
dict.  `movement` (heading/speed) is not modelled: no claim mentions
it and it does not influence any other field. -/
structure Storm where
  atcf_id : String
  time : List PyDateTime
  longitude : List ℚ
  latitude : List ℚ
  wind : List ℤ
  pressure : Option (List ℤ) := none
  storm_type : Option (List String) := none
  name : Option String := none
  continuous : Bool := true
  interpolated : Bool := false
  subset : Bool := false
deriving DecidableEq, Repr, Inhabited

/-- `Storm.mjd` as computed in `Storm.__init__`. -/
def Storm.mjd (s : Storm) : List ℚ := s.time.map datetime_to_mjd

/-- `Storm._tropical_flag` as computed in `Storm.__init__`: all-true
of the longitude array's length when no storm type is given. -/
def Storm.tropical_flag (s : Storm) : List Bool :=
  match s.storm_type with
  | none => s.longitude.map (fun _ => true)
  | some st => st.map is_tropical

/-- `Storm._synoptic_flag` as computed in `Storm.__init__`. -/
def Storm.synoptic_flag (s : Storm) : List Bool := s.time.map is_synoptic

/-- `Storm.start_time` (`self.time[0]`). -/
def Storm.start_time (s : Storm) : PyDateTime := s.time.headD default

/-- `Storm.end_time` (`self.time[-1]`). -/
def Storm.end_time (s : Storm) : PyDateTime := s.time.getLastD default

/-- `Storm.atcf_basin` (`self.atcf_id[:2]`). -/
def Storm.atcf_basin (s : Storm) : String := pyTake s.atcf_id 2

/-- `Storm.atcf_number` (`int(self.atcf_id[2:])`); `none` models the
`ValueError` when the suffix does not parse. -/
def Storm.atcf_number? (s : Storm) : Option ℤ := pyIntOfString (pyDrop s.atcf_id 2)

/-- `Storm.atcf_season` (storm.py lines 196–211).  The result is
`none` exactly when the year-crossover branch needs `atcf_number` and
the id suffix does not parse. -/
def Storm.atcf_season (s : Storm) : Option ℤ :=
  let start_year : ℤ := s.start_time.year
  let end_year : ℤ := s.end_time.year
  if start_year = end_year then
    if NORTHERN_HEMISPHERE_BASIN.contains s.atcf_basin then some start_year
    else if 7 ≤ s.start_time.month then some (start_year + 1)
    else some start_year
  else
    -- start not equal end: year crossover
    s.atcf_number?.map fun n => if n % 60 < 3 then end_year else start_year

/-- `BDeckFile._get_category` (bdeck.py lines 158–198); `none` is the
Python `None` default of the raw-category argument. -/
def _get_category (wind : ℤ) (category : Option String) : String :=
  if category ∉ ([none, some "TY", some "HU", some "ST", some "MH"] : List (Option String)) then
    category.getD ""
  else if wind > 137 then "C5"
  else if wind > 114 then "C4"
  else if wind > 96 then "C3"
  else if wind > 83 then "C2"
  else if wind > 64 then "C1"
  else if wind > 34 then "TS"
  else "TD"

/-- The category classification as claim C7 states it, written from
the claim's words, for comparison with `_get_category`. -/
def specCategory (wind : ℤ) (raw : Option String) : String :=
  if raw = none ∨ raw = some "TY" ∨ raw = some "HU" ∨ raw = some "ST" ∨ raw = some "MH" then
    if wind > 137 then "C5"
    else if wind > 114 then "C4"
    else if wind > 96 then "C3"
    else if wind > 83 then "C2"
    else if wind > 64 then "C1"
    else if wind > 34 then "TS"
    else "TD"
  else raw.getD ""

/-- C7: `_get_category` returns the raw code unless it is absent or
one of `TY`, `HU`, `ST`, `MH`, in which case the result is determined
solely by wind through the thresholds `>137→C5, >114→C4, >96→C3,
>83→C2, >64→C1, >34→TS, else TD`; boundary instances `138→C5`,
`137→C4`, `65→C1`, `35→TS`, `34→TD`, `(85,EX)→EX`, `(85,TY)→C2`. -/
theorem c7_get_category_spec :
    (∀ (wind : ℤ) (raw : Option String), _get_category wind raw = specCategory wind raw) ∧
    _get_category 138 none = "C5" ∧ _get_category 137 none = "C4" ∧
    _get_category 65 none = "C1" ∧ _get_category 35 none = "TS" ∧
    _get_category 34 none = "TD" ∧ _get_category 85 (some "EX") = "EX" ∧
    _get_category 85 (some "TY") = "C2" := by
  refine ⟨fun wind raw => ?_, rfl, rfl, rfl, rfl, rfl, rfl, rfl⟩
  have hmem : raw ∈ ([none, some "TY", some "HU", some "ST", some "MH"] :
      List (Option String)) ↔
      (raw = none ∨ raw = some "TY" ∨ raw = some "HU" ∨ raw = some "ST" ∨
        raw = some "MH") := by
    simp
  unfold _get_category specCategory
  by_cases h : raw = none ∨ raw = some "TY" ∨ raw = some "HU" ∨ raw = some "ST" ∨
      raw = some "MH"
  · rw [if_neg (fun hc => hc (hmem.mpr h)), if_pos h]
  · rw [if_pos (fun hc => h (hmem.mp hc)), if_neg h]

/-- The season assignment exactly as claim C6 states it. -/
def specSeason (startYear endYear : ℤ) (startMonth : ℕ) (basin : String)
    (number : ℤ) : ℤ :=
  if startYear = endYear then
    if basin = "WP" ∨ basin = "EP" ∨ basin = "CP" ∨ basin = "AL" ∨ basin = "IO" then
      startYear
    else if 7 ≤ startMonth then startYear + 1
    else startYear
  else if number % 60 < 3 then endYear else startYear

/-- A December-to-January year-crossing storm used for claim C6's
boundary instances. -/
def stormC6 (id : String) : Storm :=
  { atcf_id := id,
    time := [⟨2023, 12, 30, 0, 0, 0, 0⟩, ⟨2024, 1, 2, 0, 0, 0, 0⟩],
    longitude := [140, 141], latitude := [20, 21], wind := [50, 45] }

/-- C6: `atcf_season` equals the claim's case formula (same-year: the
year for `WP/EP/CP/AL/IO`, else next year from July on; crossover: end
year iff number mod 60 < 3); a number-2 storm spanning Dec 2023 to Jan
2024 gets season 2024 and a number-10 storm under the same dates gets
2023. -/
theorem c6_atcf_season_spec :
    (∀ (s : Storm) (n : ℤ), s.atcf_number? = some n →
      s.atcf_season = some (specSeason s.start_time.year s.end_time.year
        s.start_time.month s.atcf_basin n)) ∧
    (stormC6 "WP02").atcf_season = some 2024 ∧
    (stormC6 "WP10").atcf_season = some 2023 := by
  refine ⟨fun s n hn => ?_, by decide, by decide⟩
  unfold Storm.atcf_season specSeason
  have hbasin : NORTHERN_HEMISPHERE_BASIN.contains s.atcf_basin = true ↔
      (s.atcf_basin = "WP" ∨ s.atcf_basin = "EP" ∨ s.atcf_basin = "CP" ∨
        s.atcf_basin = "AL" ∨ s.atcf_basin = "IO") := by
    simp [NORTHERN_HEMISPHERE_BASIN]
  by_cases hy : (s.start_time.year : ℤ) = (s.end_time.year : ℤ)
  · simp only [hy, if_pos rfl, if_pos trivial]
    by_cases hb : s.atcf_basin = "WP" ∨ s.atcf_basin = "EP" ∨ s.atcf_basin = "CP" ∨
        s.atcf_basin = "AL" ∨ s.atcf_basin = "IO"
    · rw [if_pos (hbasin.mpr hb), if_pos hb]
    · rw [if_neg (fun hc => hb (hbasin.mp hc)), if_neg hb]
      by_cases hm : 7 ≤ s.start_time.month
      · rw [if_pos hm, if_pos hm]
      · rw [if_neg hm, if_neg hm]
  · rw [if_neg hy, if_neg hy, hn]; rfl

/-- Witness for C6's universally quantified part, at the number-2
December storm. -/
theorem c6_atcf_season_spec_witness :
    (stormC6 "WP02").atcf_number? = some 2 ∧
    (stormC6 "WP02").atcf_season = some (specSeason (stormC6 "WP02").start_time.year
      (stormC6 "WP02").end_time.year (stormC6 "WP02").start_time.month
      (stormC6 "WP02").atcf_basin 2) :=
  ⟨by decide, c6_atcf_season_spec.1 (stormC6 "WP02") 2 (by decide)⟩

/-!
### Claim C2: MJD round trip

Strategy: `datetime_to_mjd` decomposes into an integer Julian day
number `jdnOfDate` plus `timeFrac`; `mjd_to_datetime` recovers both
parts exactly over `ℚ`.  The calendar inversion
`calendarFromJdn ∘ jdnOfDate = id` is proved by a 400-year
periodicity argument (both maps shift by 146097 days per 400 years)
plus an exhaustive check of one 400-year window.
-/

/-- `pyTrunc` on a nonnegative rational is the floor. -/
theorem pyTrunc_of_nonneg (q : ℚ) (h : 0 ≤ q) : pyTrunc q = ⌊q⌋ := by
  rw [pyTrunc, if_pos h]

/-- `pyTrunc` of a quotient of naturals is `Nat` division. -/
theorem pyTrunc_natCast_div (a b : ℕ) (hb : 0 < b) :
    pyTrunc ((a : ℚ) / (b : ℚ)) = ((a / b : ℕ) : ℤ) := by
  have hbq : (0 : ℚ) < (b : ℚ) := by exact_mod_cast hb
  rw [pyTrunc_of_nonneg _ (by positivity), Int.floor_eq_iff]
  constructor
  · rw [le_div_iff₀ hbq]
    exact_mod_cast Nat.div_mul_le_self a b
  · rw [div_lt_iff₀ hbq]
    have h1 : a < (a / b + 1) * b := by
      have h2 := Nat.div_add_mod a b
      have h3 := Nat.mod_lt a hb
      nlinarith [h2, h3]
    exact_mod_cast h1

/-- `pyTrunc` of an integer plus a fractional remainder. -/
theorem pyTrunc_int_add_fract (n : ℤ) (r : ℚ) (hn : 0 ≤ n) (h0 : 0 ≤ r) (h1 : r < 1) :
    pyTrunc ((n : ℚ) + r) = n := by
  rw [pyTrunc_of_nonneg _ (by positivity), Int.floor_eq_iff]
  constructor
  · linarith
  · linarith

/-- The integer Julian day number implicit in `datetime_to_mjd`:
`1461*(Y+4716)/4` and `306001*(M+1)/10000` (in `ℕ`) are the two float
truncations of the source. -/
def jdnOfDate (y m d : ℕ) : ℤ :=
  let Y : ℕ := if m ≤ 2 then y - 1 else y
  let M : ℕ := if m ≤ 2 then m + 12 else m
  let a : ℕ := Y / 100
  ((1461 * (Y + 4716) / 4 : ℕ) : ℤ) + ((306001 * (M + 1) / 10000 : ℕ) : ℤ) +
    (d : ℤ) + 2 - (a : ℤ) + ((a / 4 : ℕ) : ℤ) - 1524

theorem pyTrunc_36525 (Y : ℕ) :
    pyTrunc (365.25 * ((Y : ℚ) + 4716)) = ((1461 * (Y + 4716) / 4 : ℕ) : ℤ) := by
  have h : (365.25 : ℚ) * ((Y : ℚ) + 4716) = ((1461 * (Y + 4716) : ℕ) : ℚ) / ((4 : ℕ) : ℚ) := by
    push_cast
    norm_num
    ring
  rw [h, pyTrunc_natCast_div _ _ (by norm_num)]

theorem pyTrunc_306001 (M : ℕ) :
    pyTrunc (30.6001 * ((M : ℚ) + 1)) = ((306001 * (M + 1) / 10000 : ℕ) : ℤ) := by
  have h : (30.6001 : ℚ) * ((M : ℚ) + 1) =
      ((306001 * (M + 1) : ℕ) : ℚ) / ((10000 : ℕ) : ℚ) := by
    push_cast
    norm_num
    ring
  rw [h, pyTrunc_natCast_div _ _ (by norm_num)]

/-- Decomposition of `datetime_to_mjd` into date and time parts. -/
theorem datetime_to_mjd_decomp (dt : PyDateTime) :
    datetime_to_mjd dt =
      ((jdnOfDate dt.year dt.month dt.day : ℚ)) - 2400001 + timeFrac dt := by
  unfold datetime_to_mjd jdnOfDate
  by_cases hm : dt.month ≤ 2
  · simp only [if_pos hm, pyTrunc_36525, pyTrunc_306001]
    push_cast
    norm_num
    ring
  · simp only [if_neg hm, pyTrunc_36525, pyTrunc_306001]
    push_cast
    norm_num
    ring

/-- Shift the year of a calendar triple. -/
def addYears (c : ℤ × ℕ × ℕ) (k : ℤ) : ℤ × ℕ × ℕ := (c.1 + k, c.2.1, c.2.2)

/-- 400-year periodicity of the calendar inversion: 146097 days later,
the same month and day in the year 400 later. -/
theorem calendarFromJdn_add_146097 (J : ℕ) :
    calendarFromJdn (J + 146097) = addYears (calendarFromJdn J) 400 := by
  simp only [calendarFromJdn, addYears]
  have h1 : J + 146097 + 68569 = J + 68569 + 146097 := by omega
  rw [h1]
  have h2 : 4 * (J + 68569 + 146097) / 146097 = 4 * (J + 68569) / 146097 + 4 := by
    omega
  rw [h2]
  have h3 : (146097 * (4 * (J + 68569) / 146097 + 4) + 3) / 4 =
      (146097 * (4 * (J + 68569) / 146097) + 3) / 4 + 146097 := by
    omega
  rw [h3]
  have h4 : J + 68569 + 146097 - ((146097 * (4 * (J + 68569) / 146097) + 3) / 4 + 146097) =
      J + 68569 - (146097 * (4 * (J + 68569) / 146097) + 3) / 4 := by
    omega
  rw [h4]
  simp only [Prod.mk.injEq, and_true, true_and, and_self]
  push_cast
  ring

theorem calendarFromJdn_add_146097_mul (J t : ℕ) :
    calendarFromJdn (J + 146097 * t) = addYears (calendarFromJdn J) (400 * t) := by
  induction t with
  | zero => simp [addYears]
  | succ k ih =>
    have h : J + 146097 * (k + 1) = (J + 146097 * k) + 146097 := by ring
    rw [h, calendarFromJdn_add_146097, ih]
    simp only [addYears, Prod.mk.injEq, and_true, true_and, and_self]
    push_cast
    ring

/-- 400-year periodicity of the forward Julian day number. -/
theorem jdnOfDate_add_400 (y m d : ℕ) (hy : 1 ≤ y) :
    jdnOfDate (y + 400) m d = jdnOfDate y m d + 146097 := by
  by_cases hm : m ≤ 2
  · simp only [jdnOfDate, if_pos hm]
    have hY : y + 400 - 1 = (y - 1) + 400 := by omega
    rw [hY]
    have hA : 1461 * (y - 1 + 400 + 4716) / 4 = 1461 * (y - 1 + 4716) / 4 + 146100 := by
      omega
    have ha : (y - 1 + 400) / 100 = (y - 1) / 100 + 4 := by omega
    have ha4 : ((y - 1) / 100 + 4) / 4 = (y - 1) / 100 / 4 + 1 := by omega
    rw [hA, ha, ha4]
    push_cast
    ring
  · simp only [jdnOfDate, if_neg hm]
    have hA : 1461 * (y + 400 + 4716) / 4 = 1461 * (y + 4716) / 4 + 146100 := by
      omega
    have ha : (y + 400) / 100 = y / 100 + 4 := by omega
    have ha4 : (y / 100 + 4) / 4 = y / 100 / 4 + 1 := by omega
    rw [hA, ha, ha4]
    push_cast
    ring

theorem jdnOfDate_add_400_mul (y m d t : ℕ) (hy : 1 ≤ y) :
    jdnOfDate (y + 400 * t) m d = jdnOfDate y m d + 146097 * t := by
  induction t with
  | zero => simp
  | succ k ih =>
    have h : y + 400 * (k + 1) = (y + 400 * k) + 400 := by ring
    rw [h, jdnOfDate_add_400 _ _ _ (by omega), ih]
    push_cast
    ring

/-- The Julian day number of any anno-domini date is positive. -/
theorem jdnOfDate_pos (y m d : ℕ) : 1 ≤ jdnOfDate y m d := by
  by_cases hm : m ≤ 2 <;> simp [jdnOfDate, hm] <;> omega

/-- Leap years repeat with period 400. -/
theorem isleap_add_400 (y : ℕ) : isleap (y + 400) = isleap y := by
  unfold isleap
  rw [show (y + 400) % 4 = y % 4 by omega, show (y + 400) % 100 = y % 100 by omega,
    show (y + 400) % 400 = y % 400 by omega]

theorem isleap_add_400_mul (y t : ℕ) : isleap (y + 400 * t) = isleap y := by
  induction t with
  | zero => rfl
  | succ k ih => rw [show y + 400 * (k + 1) = y + 400 * k + 400 by ring,
      isleap_add_400, ih]

theorem daysInMonth_add_400_mul (y m t : ℕ) :
    daysInMonth (y + 400 * t) m = daysInMonth y m := by
  unfold daysInMonth
  rw [isleap_add_400_mul]

/-- Forces a natural number to constructor form before substituting it
into the continuation, so that kernel evaluation computes every
intermediate once (plain `let` bindings are zeta-substituted
unevaluated, which makes the nested division chains of
`calendarFromJdn` exponentially expensive to check by `decide`). -/
def forceNat {α : Sort u} (n : ℕ) (f : ℕ → α) : α :=
  match n with
  | 0 => f 0
  | k + 1 => f (k + 1)

theorem forceNat_eq {α : Sort u} (n : ℕ) (f : ℕ → α) : forceNat n f = f n := by
  cases n <;> rfl

/-- Evaluation-friendly form of `calendarFromJdn`. -/
def calendarFromJdnB (jdInt : ℕ) : ℤ × ℕ × ℕ :=
  forceNat (jdInt + 68569) fun l =>
  forceNat (4 * l / 146097) fun n =>
  forceNat (l - (146097 * n + 3) / 4) fun l2 =>
  forceNat (4000 * (l2 + 1) / 1461001) fun i =>
  forceNat (l2 - 1461 * i / 4 + 31) fun l3 =>
  forceNat (80 * l3 / 2447) fun j =>
  forceNat (l3 - 2447 * j / 80) fun day =>
  forceNat (j / 11) fun l4 =>
  forceNat (j + 2 - 12 * l4) fun month =>
  (100 * ((n : ℤ) - 49) + (i : ℤ) + (l4 : ℤ), month, day)

theorem calendarFromJdnB_eq (jdInt : ℕ) :
    calendarFromJdnB jdInt = calendarFromJdn jdInt := by
  simp only [calendarFromJdnB, calendarFromJdn, forceNat_eq]

/-- Evaluation-friendly `ℕ`-valued form of `jdnOfDate`. -/
def jdnOfDateN (y m d : ℕ) : ℕ :=
  forceNat (if m ≤ 2 then y - 1 else y) fun Y =>
  forceNat (if m ≤ 2 then m + 12 else m) fun M =>
  forceNat (Y / 100) fun a =>
  forceNat (1461 * (Y + 4716) / 4) fun A =>
  forceNat (306001 * (M + 1) / 10000) fun B =>
  A + B + d + 2 + a / 4 - (a + 1524)

theorem jdnOfDateN_eq (y m d : ℕ) : (jdnOfDateN y m d : ℤ) = jdnOfDate y m d := by
  by_cases hm : m ≤ 2 <;> simp only [jdnOfDateN, jdnOfDate, forceNat_eq, hm,
    if_true, if_false, ite_true, ite_false] <;> omega

theorem jdnOfDateN_toNat (y m d : ℕ) : (jdnOfDate y m d).toNat = jdnOfDateN y m d := by
  rw [← jdnOfDateN_eq, Int.toNat_natCast]

/-- Binary-splitting evaluator: `f` holds on all of `[lo, hi)`. -/
def allInRange (f : ℕ → Bool) : ℕ → ℕ → ℕ → Bool
  | 0, lo, hi => hi ≤ lo
  | fuel + 1, lo, hi =>
    if hi ≤ lo then true
    else if hi = lo + 1 then f lo
    else allInRange f fuel lo ((lo + hi) / 2) && allInRange f fuel ((lo + hi) / 2) hi

theorem allInRange_sound (f : ℕ → Bool) : ∀ (fuel lo hi : ℕ),
    allInRange f fuel lo hi = true → ∀ k, lo ≤ k → k < hi → f k = true := by
  intro fuel
  induction fuel with
  | zero =>
    intro lo hi h k h1 h2
    simp only [allInRange, decide_eq_true_eq] at h
    omega
  | succ f' ih =>
    intro lo hi h k h1 h2
    rw [allInRange] at h
    by_cases hle : hi ≤ lo
    · omega
    · rw [if_neg hle] at h
      by_cases hone : hi = lo + 1
      · rw [if_pos hone] at h
        have hk : k = lo := by omega
        rwa [hk]
      · rw [if_neg hone, Bool.and_eq_true] at h
        by_cases hk : k < (lo + hi) / 2
        · exact ih lo ((lo + hi) / 2) h.1 k h1 hk
        · exact ih ((lo + hi) / 2) hi h.2 k (by omega) h2

/-- Certificate for one calendar month of the 400-year window
(`k < 4800` encodes year `2000 + k/12`, month `1 + k%12`): the
calendar inversion is checked at the first day of the month, and the
division counters `n`, `i`, `j` are checked to agree at the first and
last day, which pins every interior day by monotonicity of `Nat`
division. -/
def monthCheck (k : ℕ) : Bool :=
  forceNat (2000 + k / 12) fun y =>
  forceNat (1 + k % 12) fun m =>
  forceNat (daysInMonth y m) fun dim =>
  forceNat (jdnOfDateN y m 1 + 68569) fun l =>
  forceNat (4 * l / 146097) fun n =>
  forceNat ((146097 * n + 3) / 4) fun c1 =>
  forceNat (l - c1) fun l2 =>
  forceNat (4000 * (l2 + 1) / 1461001) fun i =>
  forceNat (1461 * i / 4) fun c2 =>
  forceNat (l2 - c2 + 31) fun l3 =>
  forceNat (80 * l3 / 2447) fun j =>
  forceNat (2447 * j / 80) fun c3 =>
  forceNat (j / 11) fun l4 =>
  forceNat (l + (dim - 1)) fun lE =>
  forceNat (4 * lE / 146097) fun nE =>
  forceNat (lE - c1) fun l2E =>
  forceNat (4000 * (l2E + 1) / 1461001) fun iE =>
  forceNat (l2E - c2 + 31) fun l3E =>
  forceNat (80 * l3E / 2447) fun jE =>
  decide (49 ≤ n) && (100 * (n - 49) + i + l4 == y) &&
    (j + 2 - 12 * l4 == m) && (l3 - c3 == 1) &&
    decide (c1 ≤ l) && decide (c2 ≤ l2) &&
    (nE == n) && (iE == i) && (jE == j)

/-- `jdnOfDateN` is linear in the day. -/
theorem jdnOfDateN_day (y m d : ℕ) (hd : 1 ≤ d) :
    jdnOfDateN y m d = jdnOfDateN y m 1 + (d - 1) := by
  by_cases hm : m ≤ 2 <;> simp only [jdnOfDateN, forceNat_eq, hm, if_true,
    if_false, ite_true, ite_false] <;> omega

theorem forceNat_true (n : ℕ) (f : ℕ → Bool) (h : forceNat n f = true) :
    ∃ x, x = n ∧ f x = true := ⟨n, rfl, by rwa [forceNat_eq] at h⟩

theorem monthCheck_sound_core (y m dim l n c1 l2 i c2 l3 j c3 l4 lE nE l2E iE l3E jE : ℕ)
    (hl : l = jdnOfDateN y m 1 + 68569)
    (hn : n = 4 * l / 146097)
    (hc1 : c1 = (146097 * n + 3) / 4)
    (hl2 : l2 = l - c1)
    (hi : i = 4000 * (l2 + 1) / 1461001)
    (hc2 : c2 = 1461 * i / 4)
    (hl3 : l3 = l2 - c2 + 31)
    (hj : j = 80 * l3 / 2447)
    (hc3 : c3 = 2447 * j / 80)
    (hl4 : l4 = j / 11)
    (hlE : lE = l + (dim - 1))
    (hnE : nE = 4 * lE / 146097)
    (hl2E : l2E = lE - c1)
    (hiE : iE = 4000 * (l2E + 1) / 1461001)
    (hl3E : l3E = l2E - c2 + 31)
    (hjE : jE = 80 * l3E / 2447)
    (h49 : 49 ≤ n) (hyear : 100 * (n - 49) + i + l4 = y)
    (hmonth : j + 2 - 12 * l4 = m) (hday : l3 - c3 = 1)
    (hc1l : c1 ≤ l) (hc2l : c2 ≤ l2)
    (heqn : nE = n) (heqi : iE = i) (heqj : jE = j)
    (δ : ℕ) (hδ : δ < dim) :
    calendarFromJdn (jdnOfDateN y m 1 + δ) = ((y : ℤ), m, 1 + δ) := by
  have g1 : jdnOfDateN y m 1 + δ + 68569 = l + δ := by omega
  have g2 : 4 * (l + δ) / 146097 = n := by omega
  have g3 : l + δ - (146097 * n + 3) / 4 = l2 + δ := by omega
  have g4 : 4000 * (l2 + δ + 1) / 1461001 = i := by omega
  have g5 : l2 + δ - 1461 * i / 4 + 31 = l3 + δ := by omega
  have g6 : 80 * (l3 + δ) / 2447 = j := by omega
  have g7 : l3 + δ - 2447 * j / 80 = 1 + δ := by omega
  simp only [calendarFromJdn]
  rw [g1, g2, g3, g4, g5, g6, g7, ← hl4, hmonth]
  simp only [Prod.mk.injEq, and_true, true_and, and_self]
  omega

/-- What one passed month certificate certifies: the calendar
inversion at every day of that month. -/
theorem monthCheck_sound (k : ℕ) (h : monthCheck k = true) :
    ∀ δ, δ < daysInMonth (2000 + k / 12) (1 + k % 12) →
      calendarFromJdn (jdnOfDateN (2000 + k / 12) (1 + k % 12) 1 + δ) =
        (((2000 + k / 12 : ℕ) : ℤ), (1 + k % 12 : ℕ), 1 + δ) := by
  intro δ hδ
  rw [monthCheck] at h
  obtain ⟨y, hy, h⟩ := forceNat_true _ _ h
  obtain ⟨m, hm, h⟩ := forceNat_true _ _ h
  obtain ⟨dim, hdim, h⟩ := forceNat_true _ _ h
  obtain ⟨l, hl, h⟩ := forceNat_true _ _ h
  obtain ⟨n, hn, h⟩ := forceNat_true _ _ h
  obtain ⟨c1, hc1, h⟩ := forceNat_true _ _ h
  obtain ⟨l2, hl2, h⟩ := forceNat_true _ _ h
  obtain ⟨i, hi, h⟩ := forceNat_true _ _ h
  obtain ⟨c2, hc2, h⟩ := forceNat_true _ _ h
  obtain ⟨l3, hl3, h⟩ := forceNat_true _ _ h
  obtain ⟨j, hj, h⟩ := forceNat_true _ _ h
  obtain ⟨c3, hc3, h⟩ := forceNat_true _ _ h
  obtain ⟨l4, hl4, h⟩ := forceNat_true _ _ h
  obtain ⟨lE, hlE, h⟩ := forceNat_true _ _ h
  obtain ⟨nE, hnE, h⟩ := forceNat_true _ _ h
  obtain ⟨l2E, hl2E, h⟩ := forceNat_true _ _ h
  obtain ⟨iE, hiE, h⟩ := forceNat_true _ _ h
  obtain ⟨l3E, hl3E, h⟩ := forceNat_true _ _ h
  obtain ⟨jE, hjE, h⟩ := forceNat_true _ _ h
  simp only [Bool.and_eq_true, beq_iff_eq, decide_eq_true_eq] at h
  obtain ⟨⟨⟨⟨⟨⟨⟨⟨h49, hyear⟩, hmonth⟩, hday⟩, hc1l⟩, hc2l⟩, heqn⟩, heqi⟩, heqj⟩ := h
  rw [← hy, ← hm] at hδ ⊢
  exact monthCheck_sound_core y m dim l n c1 l2 i c2 l3 j c3 l4 lE nE l2E iE l3E jE
    hl hn hc1 hl2 hi hc2 hl3 hj hc3 hl4 hlE hnE hl2E hiE hl3E hjE
    h49 hyear hmonth hday hc1l hc2l heqn heqi heqj δ (by omega)

set_option maxHeartbeats 16000000 in
theorem monthCheck_window : allInRange monthCheck 16 0 4800 = true := by decide

/-- The calendar inversion on the checked 400-year window. -/
theorem calendar_round_trip_window (r m d : ℕ) (hr1 : 2000 ≤ r) (hr2 : r < 2400)
    (hm1 : 1 ≤ m) (hm2 : m ≤ 12) (hd1 : 1 ≤ d) (hd2 : d ≤ daysInMonth r m) :
    calendarFromJdn (jdnOfDateN r m d) = ((r : ℤ), m, d) := by
  have hk : (r - 2000) * 12 + (m - 1) < 4800 := by omega
  have hchk := allInRange_sound monthCheck 16 0 4800 monthCheck_window
    ((r - 2000) * 12 + (m - 1)) (Nat.zero_le _) hk
  have hs := monthCheck_sound _ hchk (d - 1)
  have hdec1 : 2000 + ((r - 2000) * 12 + (m - 1)) / 12 = r := by omega
  have hdec2 : 1 + ((r - 2000) * 12 + (m - 1)) % 12 = m := by omega
  rw [hdec1, hdec2] at hs
  have hday := hs (by omega)
  have hd : 1 + (d - 1) = d := by omega
  rw [jdnOfDateN_day r m d hd1, hday, hd]

/-- The calendar inversion of `mjd_to_datetime` is a left inverse of
the Julian day number of `datetime_to_mjd` on every valid
proleptic-Gregorian date. -/
theorem calendar_round_trip (y m d : ℕ) (hy1 : 1 ≤ y) (hy2 : y ≤ 9999)
    (hm1 : 1 ≤ m) (hm2 : m ≤ 12) (hd1 : 1 ≤ d) (hd2 : d ≤ daysInMonth y m) :
    calendarFromJdn (jdnOfDate y m d).toNat = ((y : ℤ), m, d) := by
  rcases Nat.lt_or_ge y 2400 with hcase | hcase
  · -- shift the date up into the window
    obtain ⟨t, hr1, hr2⟩ : ∃ t : ℕ, 2000 ≤ y + 400 * t ∧ y + 400 * t < 2400 :=
      ⟨(2399 - y) / 400, by omega, by omega⟩
    have hdim : daysInMonth (y + 400 * t) m = daysInMonth y m :=
      daysInMonth_add_400_mul y m t
    have hwin := calendar_round_trip_window (y + 400 * t) m d hr1 hr2 hm1 hm2 hd1
      (by omega)
    have hjq := jdnOfDate_add_400_mul y m d t hy1
    have hpos := jdnOfDate_pos y m d
    have hNeq := jdnOfDateN_eq (y + 400 * t) m d
    have hshift : jdnOfDateN (y + 400 * t) m d =
        (jdnOfDate y m d).toNat + 146097 * t := by
      omega
    have hcal := calendarFromJdn_add_146097_mul ((jdnOfDate y m d).toNat) t
    rw [← hshift, hwin] at hcal
    rcases hC : calendarFromJdn ((jdnOfDate y m d).toNat) with ⟨cy, cm, cd⟩
    rw [hC] at hcal
    simp only [addYears, Prod.mk.injEq] at hcal
    obtain ⟨e1, e2, e3⟩ := hcal
    simp only [Prod.mk.injEq]
    refine ⟨by push_cast at e1 ⊢; omega, e2.symm, e3.symm⟩
  · -- shift the date down into the window
    obtain ⟨t, r, hyr, hr1, hr2⟩ :
        ∃ (t r : ℕ), y = r + 400 * t ∧ 2000 ≤ r ∧ r < 2400 :=
      ⟨(y - 2000) / 400, y - 400 * ((y - 2000) / 400), by omega, by omega, by omega⟩
    subst hyr
    have hdim : daysInMonth (r + 400 * t) m = daysInMonth r m :=
      daysInMonth_add_400_mul r m t
    have hwin := calendar_round_trip_window r m d hr1 hr2 hm1 hm2 hd1
      (by omega)
    have hjq := jdnOfDate_add_400_mul r m d t (by omega)
    have hpos := jdnOfDate_pos r m d
    have hNeq := jdnOfDateN_eq r m d
    have hshift : (jdnOfDate (r + 400 * t) m d).toNat =
        jdnOfDateN r m d + 146097 * t := by
      omega
    rw [hshift, calendarFromJdn_add_146097_mul, hwin]
    simp only [addYears, Prod.mk.injEq, and_true, true_and, and_self]
    push_cast
    omega

/-- Evaluation of `mjd_to_datetime` on a decomposed input: integer day
number `K ≥ 1` plus an intraday fraction given as a scaled count of
microseconds. -/
theorem mjd_to_datetime_split (K : ℤ) (hK : 1 ≤ K) (h mi s us : ℕ)
    (hh : h < 24) (hmi : mi < 60) (hs : s < 60) (hus : us < 1000000) :
    mjd_to_datetime ((K : ℚ) - 2400001 +
        ((3600000000 * h + 60000000 * mi + 1000000 * s + us : ℕ) : ℚ) / 86400000000) =
      ((calendarFromJdn K.toNat).1, (calendarFromJdn K.toNat).2.1,
        (calendarFromJdn K.toNat).2.2, h, mi, s, us) := by
  have hD : (0:ℚ) < 86400000000 := by norm_num
  set N : ℕ := 3600000000 * h + 60000000 * mi + 1000000 * s + us with hN
  have hNlt : N < 86400000000 := by omega
  have htf0 : (0:ℚ) ≤ (N : ℚ) / 86400000000 := by positivity
  have htf1 : (N : ℚ) / 86400000000 < 1 := by
    rw [div_lt_one hD]
    exact_mod_cast hNlt
  simp only [mjd_to_datetime]
  rw [show ((K : ℚ) - 2400001 + (N : ℚ) / 86400000000) + 2400000.5 =
    (K : ℚ) - 1 / 2 + (N : ℚ) / 86400000000 by ring_nf]
  -- evaluate the truncation and the carry fixup: the result is `K`
  -- with fraction `N/86400000000`
  rcases Nat.lt_or_ge N 43200000000 with hhalf | hhalf
  · -- fraction below one half: truncation gives K - 1, the carry fires
    have hP1 : pyTrunc ((K : ℚ) - 1 / 2 + (N : ℚ) / 86400000000) = K - 1 := by
      rw [pyTrunc_of_nonneg _ (by
          have : (1:ℚ) ≤ (K:ℚ) := by exact_mod_cast hK
          linarith), Int.floor_eq_iff]
      constructor
      · push_cast
        linarith
      · push_cast
        have : (N : ℚ) / 86400000000 < 1 / 2 := by
          rw [div_lt_iff₀ hD]
          have : (N : ℚ) < 43200000000 := by exact_mod_cast hhalf
          linarith
        linarith
    rw [hP1]
    have hcond : ((K : ℚ) - 1 / 2 + (N : ℚ) / 86400000000) - ((K - 1 : ℤ) : ℚ) + 0.5 ≥ 1 := by
      push_cast
      norm_num
      linarith
    simp only [if_pos hcond]
    rw [show K - 1 + 1 = K by ring]
    rw [show (((K : ℚ) - 1 / 2 + (N : ℚ) / 86400000000) - ((K - 1 : ℤ) : ℚ) + 0.5) - 1 =
      (N : ℚ) / 86400000000 by push_cast; ring_nf]
    -- time-of-day extraction
    set M1 : ℕ := 60000000 * mi + 1000000 * s + us with hM1
    set M2 : ℕ := 1000000 * s + us with hM2
    have he1 : pyTrunc ((N : ℚ) / 86400000000 * 24) = (h : ℤ) := by
      rw [show (N : ℚ) / 86400000000 * 24 = ((h : ℤ) : ℚ) + (M1 : ℚ) / 3600000000 by
        rw [hN, hM1]; push_cast; ring]
      exact pyTrunc_int_add_fract _ _ (by positivity) (by positivity)
        (by rw [div_lt_one (by norm_num)]
            exact_mod_cast (by omega : M1 < 3600000000))
    have he2 : (N : ℚ) / 86400000000 * 24 - ((h : ℤ) : ℚ) = (M1 : ℚ) / 3600000000 := by
      rw [hN, hM1]; push_cast; ring
    have he3 : pyTrunc ((M1 : ℚ) / 3600000000 * 60) = (mi : ℤ) := by
      rw [show (M1 : ℚ) / 3600000000 * 60 = ((mi : ℤ) : ℚ) + (M2 : ℚ) / 60000000 by
        rw [hM1, hM2]; push_cast; ring]
      exact pyTrunc_int_add_fract _ _ (by positivity) (by positivity)
        (by rw [div_lt_one (by norm_num)]
            exact_mod_cast (by omega : M2 < 60000000))
    have he4 : (M1 : ℚ) / 3600000000 * 60 - ((mi : ℤ) : ℚ) = (M2 : ℚ) / 60000000 := by
      rw [hM1, hM2]; push_cast; ring
    have he5 : pyTrunc ((M2 : ℚ) / 60000000 * 60) = (s : ℤ) := by
      rw [show (M2 : ℚ) / 60000000 * 60 = ((s : ℤ) : ℚ) + (us : ℚ) / 1000000 by
        rw [hM2]; push_cast; ring]
      exact pyTrunc_int_add_fract _ _ (by positivity) (by positivity)
        (by rw [div_lt_one (by norm_num)]
            exact_mod_cast hus)
    have he6 : (M2 : ℚ) / 60000000 * 60 - ((s : ℤ) : ℚ) = (us : ℚ) / 1000000 := by
      rw [hM2]; push_cast; ring
    have he7 : pyTrunc ((us : ℚ) / 1000000 * 1000000) = (us : ℤ) := by
      rw [show (us : ℚ) / 1000000 * 1000000 = ((us : ℤ) : ℚ) + 0 by push_cast; ring]
      exact pyTrunc_int_add_fract _ _ (by positivity) le_rfl (by norm_num)
    rw [he1, he2, he3, he4, he5, he6, he7]
    simp [Int.toNat_natCast]
  · -- fraction at least one half: truncation gives K, no carry
    have hP1 : pyTrunc ((K : ℚ) - 1 / 2 + (N : ℚ) / 86400000000) = K := by
      rw [pyTrunc_of_nonneg _ (by
          have : (1:ℚ) ≤ (K:ℚ) := by exact_mod_cast hK
          linarith), Int.floor_eq_iff]
      have hge : (1:ℚ) / 2 ≤ (N : ℚ) / 86400000000 := by
        rw [le_div_iff₀ hD]
        have : (43200000000 : ℚ) ≤ (N : ℚ) := by exact_mod_cast hhalf
        linarith
      constructor
      · linarith
      · linarith
    rw [hP1]
    have hcond : ¬(((K : ℚ) - 1 / 2 + (N : ℚ) / 86400000000) - (K : ℚ) + 0.5 ≥ 1) := by
      norm_num
      linarith
    simp only [if_neg hcond]
    rw [show ((K : ℚ) - 1 / 2 + (N : ℚ) / 86400000000) - (K : ℚ) + 0.5 =
      (N : ℚ) / 86400000000 by ring_nf]
    -- time-of-day extraction
    set M1 : ℕ := 60000000 * mi + 1000000 * s + us with hM1
    set M2 : ℕ := 1000000 * s + us with hM2
    have he1 : pyTrunc ((N : ℚ) / 86400000000 * 24) = (h : ℤ) := by
      rw [show (N : ℚ) / 86400000000 * 24 = ((h : ℤ) : ℚ) + (M1 : ℚ) / 3600000000 by
        rw [hN, hM1]; push_cast; ring]
      exact pyTrunc_int_add_fract _ _ (by positivity) (by positivity)
        (by rw [div_lt_one (by norm_num)]
            exact_mod_cast (by omega : M1 < 3600000000))
    have he2 : (N : ℚ) / 86400000000 * 24 - ((h : ℤ) : ℚ) = (M1 : ℚ) / 3600000000 := by
      rw [hN, hM1]; push_cast; ring
    have he3 : pyTrunc ((M1 : ℚ) / 3600000000 * 60) = (mi : ℤ) := by
      rw [show (M1 : ℚ) / 3600000000 * 60 = ((mi : ℤ) : ℚ) + (M2 : ℚ) / 60000000 by
        rw [hM1, hM2]; push_cast; ring]
      exact pyTrunc_int_add_fract _ _ (by positivity) (by positivity)
        (by rw [div_lt_one (by norm_num)]
            exact_mod_cast (by omega : M2 < 60000000))
    have he4 : (M1 : ℚ) / 3600000000 * 60 - ((mi : ℤ) : ℚ) = (M2 : ℚ) / 60000000 := by
      rw [hM1, hM2]; push_cast; ring
    have he5 : pyTrunc ((M2 : ℚ) / 60000000 * 60) = (s : ℤ) := by
      rw [show (M2 : ℚ) / 60000000 * 60 = ((s : ℤ) : ℚ) + (us : ℚ) / 1000000 by
        rw [hM2]; push_cast; ring]
      exact pyTrunc_int_add_fract _ _ (by positivity) (by positivity)
        (by rw [div_lt_one (by norm_num)]
            exact_mod_cast hus)
    have he6 : (M2 : ℚ) / 60000000 * 60 - ((s : ℤ) : ℚ) = (us : ℚ) / 1000000 := by
      rw [hM2]; push_cast; ring
    have he7 : pyTrunc ((us : ℚ) / 1000000 * 1000000) = (us : ℤ) := by
      rw [show (us : ℚ) / 1000000 * 1000000 = ((us : ℤ) : ℚ) + 0 by push_cast; ring]
      exact pyTrunc_int_add_fract _ _ (by positivity) le_rfl (by norm_num)
    rw [he1, he2, he3, he4, he5, he6, he7]
    simp [Int.toNat_natCast]

/-- `timeFrac` as a single scaled microsecond count. -/
theorem timeFrac_eq (dt : PyDateTime) :
    timeFrac dt = ((3600000000 * dt.hour + 60000000 * dt.minute +
      1000000 * dt.second + dt.microsecond : ℕ) : ℚ) / 86400000000 := by
  unfold timeFrac
  push_cast
  field_simp
  ring

/-- C2: for every valid calendar timestamp `t`,
`mjd_to_datetime (datetime_to_mjd t)` reproduces `t`: year, month,
day, hour, minute and second are all equal, and over the exact
rational model the microseconds are recovered exactly as well (a
fortiori within rounding error under one second). -/
theorem c2_mjd_round_trip (dt : PyDateTime) (hv : ValidDateTime dt) :
    mjd_to_datetime (datetime_to_mjd dt) =
      ((dt.year : ℤ), dt.month, dt.day, dt.hour, dt.minute, dt.second,
        dt.microsecond) := by
  obtain ⟨hy1, hy2, hm1, hm2, hd1, hd2, hh, hmi, hs, hus⟩ := hv
  rw [datetime_to_mjd_decomp, timeFrac_eq,
    mjd_to_datetime_split _ (jdnOfDate_pos dt.year dt.month dt.day) _ _ _ _
      hh hmi hs hus,
    calendar_round_trip dt.year dt.month dt.day hy1 hy2 hm1 hm2 hd1 hd2]

/-- Witness for C2 at 2024-02-29 18:30:15.123456 UTC. -/
theorem c2_mjd_round_trip_witness :
    ValidDateTime ⟨2024, 2, 29, 18, 30, 15, 123456⟩ ∧
    mjd_to_datetime (datetime_to_mjd ⟨2024, 2, 29, 18, 30, 15, 123456⟩) =
      ((2024 : ℤ), 2, 29, 18, 30, 15, 123456) :=
  ⟨by decide, c2_mjd_round_trip ⟨2024, 2, 29, 18, 30, 15, 123456⟩ (by decide)⟩

/-- numpy boolean-mask indexing `arr[mask]`. -/
def maskFilter {α : Type _} : List Bool → List α → List α
  | true :: ms, x :: xs => x :: maskFilter ms xs
  | false :: ms, _ :: xs => maskFilter ms xs
  | _, _ => []

/-- The body of the `daily_ace` accumulation loop (storm.py lines
186–189): find or create the day bucket, then `BasinACE.set`. -/
def dictAdd (data : List (ℤ × BasinACE)) (mjd : ℤ) (basin : Basin) (value : ℚ) :
    List (ℤ × BasinACE) :=
  match data with
  | [] => [(mjd, BasinACE.set {} basin value)]
  | (k, b) :: rest =>
    if k = mjd then (k, BasinACE.set b basin value) :: rest
    else (k, b) :: dictAdd rest mjd basin value

/-- Association-list lookup for the day-bucket dict. -/
def dictLookup (data : List (ℤ × BasinACE)) (k : ℤ) : Option BasinACE :=
  match data with
  | [] => none
  | (k0, b) :: rest => if k0 = k then some b else dictLookup rest k

/-- `Storm.daily_ace` (storm.py lines 172–190). -/
def Storm.daily_ace (s : Storm) : List (ℤ × BasinACE) :=
  let valid_flag := List.zipWith and s.tropical_flag s.synoptic_flag
  let ace_flag := List.zipWith (fun v w => v && decide (35 ≤ w)) valid_flag s.wind
  let wind := maskFilter ace_flag s.wind
  let lon := maskFilter ace_flag s.longitude
  let lat := maskFilter ace_flag s.latitude
  let mjd_filtered := maskFilter ace_flag s.mjd
  let ace := wind.map (fun w : ℤ => ((w : ℚ) ^ 2) / 10000)
  (List.zip ace (List.zip lon (List.zip lat mjd_filtered))).foldl
    (fun data x => dictAdd data (pyTrunc x.2.2.2) (get_basin x.2.1 x.2.2.1) x.1) []

/-- The per-sample view `(time, lon, lat, wind, tropical flag)`. -/
def Storm.samples (s : Storm) : List (PyDateTime × ℚ × ℚ × ℤ × Bool) :=
  List.zip s.time (List.zip s.longitude (List.zip s.latitude
    (List.zip s.wind s.tropical_flag)))

/-- The retention test of claim C1: tropical, synoptic and wind
at least 35 kt. -/
def aceQual (x : PyDateTime × ℚ × ℚ × ℤ × Bool) : Bool :=
  x.2.2.2.2 && is_synoptic x.1 && decide (35 ≤ x.2.2.2.1)

/-- The bucket content claim C1 predicts for day `d` and basin `b`
(with `floor` amended to Python `int` truncation): the sum of
`wind²/10000` over retained samples falling on that day and basin. -/
def specAceSum (s : Storm) (d : ℤ) (b : Basin) : ℚ :=
  ((s.samples.filter fun x => aceQual x &&
      decide (pyTrunc (datetime_to_mjd x.1) = d) &&
      decide (get_basin x.2.1 x.2.2.1 = b)).map
    fun x => ((x.2.2.2.1 : ℚ) ^ 2) / 10000).sum

/-- Claim C1's criterion for a day bucket to exist. -/
def specDayHit (s : Storm) (d : ℤ) : Bool :=
  s.samples.any fun x => aceQual x && decide (pyTrunc (datetime_to_mjd x.1) = d)

/-- The value of a day/basin bucket, zero when the day is absent. -/
def Storm.aceBucket (s : Storm) (d : ℤ) (b : Basin) : ℚ :=
  ((dictLookup s.daily_ace d).getD {}).get b

theorem dictLookup_dictAdd_same (D : List (ℤ × BasinACE)) (k : ℤ) (b : Basin) (v : ℚ) :
    dictLookup (dictAdd D k b v) k =
      some (BasinACE.set ((dictLookup D k).getD {}) b v) := by
  induction D with
  | nil => simp [dictAdd, dictLookup]
  | cons hd tl ih =>
    obtain ⟨k0, bb⟩ := hd
    by_cases hk : k0 = k
    · subst hk
      simp [dictAdd, dictLookup]
    · simp [dictAdd, dictLookup, hk, ih]

theorem dictLookup_dictAdd_other (D : List (ℤ × BasinACE)) (k k' : ℤ) (b : Basin)
    (v : ℚ) (h : k' ≠ k) :
    dictLookup (dictAdd D k b v) k' = dictLookup D k' := by
  induction D with
  | nil => simp [dictAdd, dictLookup, Ne.symm h]
  | cons hd tl ih =>
    obtain ⟨k0, bb⟩ := hd
    by_cases hk : k0 = k
    · subst hk
      simp [dictAdd, dictLookup, Ne.symm h]
    · simp [dictAdd, dictLookup, hk, ih]

theorem BasinACE.get_set (b : BasinACE) (x y : Basin) (v : ℚ) :
    (b.set x v).get y = if x = y then b.get y + v else b.get y := by
  cases x <;> cases y <;> simp [BasinACE.set, BasinACE.get]

/-- Characterization of the accumulation fold over an arbitrary input
list and initial dict. -/
theorem fold_bucket (L : List (ℚ × ℚ × ℚ × ℚ)) :
    ∀ (D : List (ℤ × BasinACE)) (d : ℤ) (b : Basin),
      ((dictLookup (L.foldl (fun data x =>
          dictAdd data (pyTrunc x.2.2.2) (get_basin x.2.1 x.2.2.1) x.1) D) d).getD {}).get b =
        ((dictLookup D d).getD {}).get b +
          ((L.filter fun x => decide (pyTrunc x.2.2.2 = d) &&
              decide (get_basin x.2.1 x.2.2.1 = b)).map fun x => x.1).sum := by
  induction L with
  | nil => intro D d b; simp
  | cons x L ih =>
    intro D d b
    rw [List.foldl_cons, ih]
    by_cases hd : pyTrunc x.2.2.2 = d
    · rw [hd, dictLookup_dictAdd_same]
      by_cases hb : get_basin x.2.1 x.2.2.1 = b
      · simp [BasinACE.get_set, hb, hd, List.filter_cons]
        ring
      · simp [BasinACE.get_set, hb, hd, List.filter_cons]
    · rw [dictLookup_dictAdd_other _ _ _ _ _ (Ne.symm hd)]
      simp [List.filter_cons, hd]

/-- Day-bucket existence under the fold. -/
theorem fold_bucket_isSome (L : List (ℚ × ℚ × ℚ × ℚ)) :
    ∀ (D : List (ℤ × BasinACE)) (d : ℤ),
      (dictLookup (L.foldl (fun data x =>
          dictAdd data (pyTrunc x.2.2.2) (get_basin x.2.1 x.2.2.1) x.1) D) d).isSome ↔
        (dictLookup D d).isSome ∨ ∃ x ∈ L, pyTrunc x.2.2.2 = d := by
  induction L with
  | nil => intro D d; simp
  | cons x L ih =>
    intro D d
    rw [List.foldl_cons, ih]
    by_cases hd : pyTrunc x.2.2.2 = d
    · rw [hd, dictLookup_dictAdd_same]
      simp [hd]
    · rw [dictLookup_dictAdd_other _ _ _ _ _ (Ne.symm hd)]
      simp [hd]

/-- The masked-array pipeline of `daily_ace` equals a map over the
filtered per-sample view. -/
theorem ace_pipeline :
    ∀ (ts : List PyDateTime) (lons lats : List ℚ) (ws : List ℤ) (tf : List Bool),
      lons.length = ts.length → lats.length = ts.length → ws.length = ts.length →
      tf.length = ts.length →
      (List.zip ((maskFilter (List.zipWith (fun v w => v && decide (35 ≤ w))
            (List.zipWith and tf (ts.map is_synoptic)) ws) ws).map
          (fun w : ℤ => ((w : ℚ) ^ 2) / 10000))
        (List.zip (maskFilter (List.zipWith (fun v w => v && decide (35 ≤ w))
            (List.zipWith and tf (ts.map is_synoptic)) ws) lons)
          (List.zip (maskFilter (List.zipWith (fun v w => v && decide (35 ≤ w))
              (List.zipWith and tf (ts.map is_synoptic)) ws) lats)
            (maskFilter (List.zipWith (fun v w => v && decide (35 ≤ w))
              (List.zipWith and tf (ts.map is_synoptic)) ws)
              (ts.map datetime_to_mjd))))) =
      ((List.zip ts (List.zip lons (List.zip lats (List.zip ws tf)))).filter
          aceQual).map
        (fun x => (((x.2.2.2.1 : ℚ) ^ 2) / 10000, x.2.1, x.2.2.1,
          datetime_to_mjd x.1)) := by
  intro ts
  induction ts with
  | nil =>
    intro lons lats ws tf h1 h2 h3 h4
    rw [List.length_nil, List.length_eq_zero] at h1 h2 h3 h4
    subst h1; subst h2; subst h3; subst h4
    rfl
  | cons t ts ih =>
    intro lons lats ws tf h1 h2 h3 h4
    rcases lons with _ | ⟨lon, lons⟩
    · simp at h1
    rcases lats with _ | ⟨lat, lats⟩
    · simp at h2
    rcases ws with _ | ⟨w, ws⟩
    · simp at h3
    rcases tf with _ | ⟨fl, tf⟩
    · simp at h4
    simp only [List.length_cons, Nat.succ.injEq] at h1 h2 h3 h4
    have ihx := ih lons lats ws tf h1 h2 h3 h4
    simp only [List.map_cons, List.zipWith_cons_cons, List.zip_cons_cons,
      List.filter_cons]
    by_cases hq : (fl && is_synoptic t && decide (35 ≤ w)) = true
    · rw [hq]
      simp only [maskFilter, List.map_cons, List.zip_cons_cons]
      have hq2 : aceQual (t, lon, lat, w, fl) = true := hq
      rw [if_pos hq2, List.map_cons, ihx]
    · rw [Bool.not_eq_true] at hq
      rw [hq]
      simp only [maskFilter]
      have hq2 : aceQual (t, lon, lat, w, fl) = false := hq
      rw [if_neg (by rw [hq2]; exact Bool.false_ne_true)]
      exact ihx

theorem ace_sum_filter_map (S : List (PyDateTime × ℚ × ℚ × ℤ × Bool)) (d : ℤ) (b : Basin) :
    ((((S.filter aceQual).map (fun x => (((x.2.2.2.1 : ℚ) ^ 2) / 10000, x.2.1, x.2.2.1,
        datetime_to_mjd x.1))).filter
      (fun x => decide (pyTrunc x.2.2.2 = d) && decide (get_basin x.2.1 x.2.2.1 = b))).map
        (fun x => x.1)).sum =
    ((S.filter (fun x => aceQual x && decide (pyTrunc (datetime_to_mjd x.1) = d) &&
        decide (get_basin x.2.1 x.2.2.1 = b))).map
      (fun x => ((x.2.2.2.1 : ℚ) ^ 2) / 10000)).sum := by
  induction S with
  | nil => rfl
  | cons x S ih =>
    simp only [List.filter_cons]
    by_cases hq : aceQual x = true
    · rw [if_pos hq, List.map_cons, List.filter_cons]
      by_cases hd : pyTrunc (datetime_to_mjd x.1) = d
      · by_cases hb : get_basin x.2.1 x.2.2.1 = b
        · rw [if_pos (by simp [hd, hb]), if_pos (by simp [hq, hd, hb]),
            List.map_cons, List.map_cons, List.sum_cons, List.sum_cons, ih]
        · rw [if_neg (by simp [hb]), if_neg (by simp [hb]), ih]
      · rw [if_neg (by simp [hd]), if_neg (by simp [hd]), ih]
    · rw [Bool.not_eq_true] at hq
      rw [if_neg (by simp [hq]), if_neg (by simp [hq]), ih]

/-- Bucket characterization of `daily_ace` for a well-formed storm. -/
theorem daily_ace_bucket_char (s : Storm)
    (h1 : s.longitude.length = s.time.length)
    (h2 : s.latitude.length = s.time.length)
    (h3 : s.wind.length = s.time.length)
    (h4 : s.tropical_flag.length = s.time.length)
    (d : ℤ) (b : Basin) :
    s.aceBucket d b = specAceSum s d b ∧
    ((dictLookup s.daily_ace d).isSome ↔ specDayHit s d = true) := by
  have hpipe := ace_pipeline s.time s.longitude s.latitude s.wind s.tropical_flag
    h1 h2 h3 h4
  have hda : s.daily_ace = (((s.samples.filter aceQual).map
      (fun x => (((x.2.2.2.1 : ℚ) ^ 2) / 10000, x.2.1, x.2.2.1,
        datetime_to_mjd x.1))).foldl
    (fun data x => dictAdd data (pyTrunc x.2.2.2) (get_basin x.2.1 x.2.2.1) x.1) []) := by
    rw [Storm.daily_ace, Storm.samples]
    rw [Storm.mjd, Storm.synoptic_flag]
    rw [hpipe]
  constructor
  · rw [Storm.aceBucket, hda, fold_bucket, ace_sum_filter_map]
    simp [dictLookup, specAceSum]
    cases b <;> rfl
  · rw [hda, fold_bucket_isSome]
    simp only [dictLookup, Option.isSome_none, Bool.false_eq_true, false_or]
    rw [specDayHit, List.any_eq_true]
    constructor
    · rintro ⟨y, hy, hyd⟩
      rw [List.mem_map] at hy
      obtain ⟨smp, hsmp, hfy⟩ := hy
      rw [List.mem_filter] at hsmp
      refine ⟨smp, hsmp.1, ?_⟩
      rw [Bool.and_eq_true, decide_eq_true_eq]
      refine ⟨hsmp.2, ?_⟩
      rw [← hfy] at hyd
      exact hyd
    · rintro ⟨smp, hsmp, hcond⟩
      rw [Bool.and_eq_true, decide_eq_true_eq] at hcond
      refine ⟨(((smp.2.2.2.1 : ℚ) ^ 2) / 10000, smp.2.1, smp.2.2.1,
        datetime_to_mjd smp.1), ?_, hcond.2⟩
      rw [List.mem_map]
      exact ⟨smp, by rw [List.mem_filter]; exact ⟨hsmp, hcond.1⟩, rfl⟩

/-- A single-sample storm: tropical (no type array), synoptic hour,
wind 60 kt, in the western Pacific, on 2024-09-01 (MJD 60554). -/
def stormC1ex : Storm :=
  { atcf_id := "WP05", time := [⟨2024, 9, 1, 0, 0, 0, 0⟩],
    longitude := [140], latitude := [20], wind := [60] }

/-- The same storm moved to 1858-11-16 12:00 UTC, half a day before
the MJD epoch, so its (only) sample has `mjd = -0.5`. -/
def stormC1floor : Storm :=
  { atcf_id := "WP05", time := [⟨1858, 11, 16, 12, 0, 0, 0⟩],
    longitude := [140], latitude := [20], wind := [60] }

/-- C1 as stated is false on the code: `daily_ace` keys buckets by
Python `int()` (truncation toward zero), not `floor(MJD)`.  For the
storm whose only tropical synoptic 60-kt sample has `mjd = -0.5`, the
claim puts 0.36 into bucket `⌊-0.5⌋ = -1`, but the code's dict has no
bucket `-1` and holds the 0.36 under key `0`. -/
theorem c1_daily_ace_floor_counterexample :
    stormC1floor.mjd = [-(1 / 2)] ∧ (⌊(-(1 / 2) : ℚ)⌋ = -1) ∧
    dictLookup stormC1floor.daily_ace (-1) = none ∧
    dictLookup stormC1floor.daily_ace 0 = some { wpac := 0.36 } := by
  refine ⟨by with_unfolding_all decide, by with_unfolding_all decide,
    by with_unfolding_all decide, by with_unfolding_all decide⟩

/-- C1 (amended: buckets are keyed by `int(MJD)`, truncation toward
zero, which agrees with `floor` for timestamps on or after the MJD
epoch): `daily_ace` buckets exactly the simultaneously tropical,
synoptic, wind ≥ 35 samples, each contributing `wind²/10000` to the
bucket keyed by its truncated MJD and `get_basin (lon, lat)`; a day
bucket exists exactly when some retained sample truncates to that
day, so non-synoptic or sub-35-kt samples contribute nothing; a
synoptic tropical 60-kt sample contributes exactly 0.36. -/
theorem c1_daily_ace_buckets :
    (∀ (s : Storm), s.longitude.length = s.time.length →
      s.latitude.length = s.time.length → s.wind.length = s.time.length →
      s.tropical_flag.length = s.time.length →
      ∀ (d : ℤ) (b : Basin),
        s.aceBucket d b = specAceSum s d b ∧
        ((dictLookup s.daily_ace d).isSome ↔ specDayHit s d = true)) ∧
    stormC1ex.daily_ace = [(60554, { wpac := 0.36 })] :=
  ⟨fun s h1 h2 h3 h4 d b => daily_ace_bucket_char s h1 h2 h3 h4 d b,
    by with_unfolding_all decide⟩

/-- Witness for C1's universally quantified part at the concrete
one-sample storm. -/
theorem c1_daily_ace_buckets_witness :
    stormC1ex.longitude.length = stormC1ex.time.length ∧
    (stormC1ex.aceBucket 60554 Basin.WPAC = specAceSum stormC1ex 60554 Basin.WPAC ∧
      ((dictLookup stormC1ex.daily_ace 60554).isSome ↔
        specDayHit stormC1ex 60554 = true)) :=
  ⟨rfl, c1_daily_ace_buckets.1 stormC1ex rfl rfl rfl rfl 60554 Basin.WPAC⟩


-- C10: the interpolation time grid ------------------------------------

/-- `np.arange(start, stop, step)` for a positive rational step: the
values `start + k*step` for `0 ≤ k < ⌈(stop - start)/step⌉`. -/
def npArange (start stop step : ℚ) : List ℚ :=
  (List.range ⌈(stop - start) / step⌉.toNat).map fun k : ℕ => start + (k : ℚ) * step

/-- The time grid produced by `Storm.interp` (storm.py lines 254–286):
the two validations, then
`np.arange(self.mjd[0], self.mjd[-1], hour_interval / 24.0)`.  The
per-field linear interpolations onto this grid do not affect the grid
itself and are not modelled. -/
def Storm.interpTimes (s : Storm) (hour_interval : ℚ) : Except String (List ℚ) :=
  if s.continuous = false then .error "Cannot interpolate discontinuous data"
  else if hour_interval ≤ 0 then .error "hour_interval must be positive"
  else .ok (npArange (s.mjd.headD 0) (s.mjd.getLastD 0) (hour_interval / 24))

theorem npArange_head (a b step : ℚ) (hstep : 0 < step) (hab : a < b) :
    (npArange a b step).head? = some a := by
  have hn : 0 < ⌈(b - a) / step⌉.toNat := by
    have : 0 < ⌈(b - a) / step⌉ := Int.ceil_pos.mpr (div_pos (by linarith) hstep)
    omega
  obtain ⟨m, hm⟩ : ∃ m, ⌈(b - a) / step⌉.toNat = m + 1 := ⟨_, (Nat.succ_pred_eq_of_pos hn).symm⟩
  rw [npArange, hm, List.range_succ_eq_map]
  simp

theorem npArange_lt (a b step : ℚ) (hstep : 0 < step) :
    ∀ x ∈ npArange a b step, x < b := by
  intro x hx
  rw [npArange, List.mem_map] at hx
  obtain ⟨k, hk, rfl⟩ := hx
  rw [List.mem_range] at hk
  have hceil : (⌈(b - a) / step⌉ : ℚ) - 1 < (b - a) / step := by
    have := Int.ceil_lt_add_one ((b - a) / step)
    push_cast at this ⊢
    linarith
  have hkc : (k : ℚ) ≤ (⌈(b - a) / step⌉ : ℚ) - 1 := by
    have : (k : ℤ) ≤ ⌈(b - a) / step⌉ - 1 := by omega
    exact_mod_cast this
  have hkr : (k : ℚ) < (b - a) / step := lt_of_le_of_lt hkc hceil
  have := (mul_lt_mul_of_pos_right hkr hstep)
  rw [div_mul_cancel₀ _ (ne_of_gt hstep)] at this
  linarith

/-- C10 (amended): for a continuous storm whose first MJD is strictly
below its last MJD and a positive `hour_interval`, `interp` builds a
uniform grid starting at the first sample's MJD with every grid point
strictly before the last sample's MJD. -/
theorem c10_interp_grid (s : Storm) (hour_interval : ℚ)
    (hcont : s.continuous = true) (hpos : 0 < hour_interval)
    (hlt : s.mjd.headD 0 < s.mjd.getLastD 0) :
    ∃ g, s.interpTimes hour_interval = .ok g ∧
      g.head? = some (s.mjd.headD 0) ∧
      g = (List.range g.length).map
        (fun k : ℕ => s.mjd.headD 0 + (k : ℚ) * (hour_interval / 24)) ∧
      ∀ x ∈ g, x < s.mjd.getLastD 0 := by
  have hstep : 0 < hour_interval / 24 := by positivity
  refine ⟨npArange (s.mjd.headD 0) (s.mjd.getLastD 0) (hour_interval / 24), ?_, ?_, ?_, ?_⟩
  · rw [Storm.interpTimes, if_neg (by simp [hcont]), if_neg (not_le.mpr hpos)]
  · exact npArange_head _ _ _ hstep hlt
  · rw [npArange, List.length_map, List.length_range]
  · exact npArange_lt _ _ _ hstep

def dtC10a : PyDateTime := { year := 2024, month := 1, day := 1 }

def dtC10b : PyDateTime := { year := 2024, month := 1, day := 2 }

/-- A two-sample storm whose samples are a day apart. -/
def stormC10w : Storm :=
  { atcf_id := "WP90", time := [dtC10a, dtC10b], longitude := [140, 141],
    latitude := [20, 21], wind := [50, 55] }

/-- A two-sample storm whose two samples carry the same timestamp. -/
def stormC10eq : Storm :=
  { atcf_id := "WP91", time := [dtC10a, dtC10a], longitude := [140, 141],
    latitude := [20, 21], wind := [50, 55] }

theorem c10_interp_grid_witness :
    ∃ g, stormC10w.interpTimes 6 = .ok g ∧
      g.head? = some (stormC10w.mjd.headD 0) ∧
      g = (List.range g.length).map
        (fun k : ℕ => stormC10w.mjd.headD 0 + (k : ℚ) * ((6 : ℚ) / 24)) ∧
      ∀ x ∈ g, x < stormC10w.mjd.getLastD 0 :=
  c10_interp_grid stormC10w 6 rfl (by norm_num) (by with_unfolding_all decide)

/-- C10 counterexample: a continuous storm with two samples (so "at
least two samples" holds) whose timestamps coincide gets an empty
interpolation grid — there is no first grid timestamp at all. -/
theorem c10_equal_times_counterexample :
    stormC10eq.continuous = true ∧ stormC10eq.time.length = 2 ∧
    stormC10eq.interpTimes 6 = .ok [] := by
  refine ⟨rfl, rfl, ?_⟩
  with_unfolding_all rfl

-- BDeck parser -----------------------------------------------------------

instance {ε α : Type _} [DecidableEq ε] [DecidableEq α] : DecidableEq (Except ε α)
  | .error e, .error f =>
    if h : e = f then .isTrue (by rw [h]) else .isFalse (by simp [h])
  | .error _, .ok _ => .isFalse (by simp)
  | .ok _, .error _ => .isFalse (by simp)
  | .ok a, .ok b =>
    if h : a = b then .isTrue (by rw [h]) else .isFalse (by simp [h])

/-- Field `i` of a split line.  Python raises `IndexError` on a
missing field; the model returns `""` instead, so theorems about
whole reads restrict themselves to lines whose accessed fields all
exist, where the two agree. -/
def seg (segs : List String) (i : ℕ) : String := segs.getD i ""

/-- `datetime.datetime.strptime(timestr, '%Y%m%d%H')` on the
canonical ten-digit form, with the constructor's range validation;
`none` models the `ValueError`. -/
def parseTimestr (ts : String) : Option PyDateTime :=
  let l := ts.data
  if l.length = 10 ∧ l.all Char.isDigit = true then
    let dt : PyDateTime := {
      year := digitsToNat (l.take 4),
      month := digitsToNat ((l.drop 4).take 2),
      day := digitsToNat ((l.drop 6).take 2),
      hour := digitsToNat ((l.drop 8).take 2) }
    if ValidDateTime dt then some dt else none
  else none

/-- The parser's persistent `idata` dict (bdeck.py).  The dict is
never cleared between records, so a field keeps its stale value until
a later line overwrites it; `Option` fields model keys that may be
absent, and `r34`/`r50`/`r64` distinguish a key holding `None` (inner
`none`) from a radii tuple. -/
structure IData where
  _long_format : Bool := false
  basin : String := ""
  number : ℤ := 0
  timestr : String := ""
  time : PyDateTime := { year := 1, month := 1, day := 1 }
  technum : String := ""
  techcode : String := ""
  tau : ℤ := 0
  lat : ℚ := 0
  lon : ℚ := 0
  wind : ℤ := 0
  category : String := ""
  raw_category : String := ""
  pres : Option ℤ := none
  r34 : Option (Option (List ℤ)) := none
  r50 : Option (Option (List ℤ)) := none
  r64 : Option (Option (List ℤ)) := none
  lci : Option ℤ := none
  lci_radius : Option ℤ := none
  rmw : Option ℤ := none
  name : Option String := none
  depth : Option String := none
deriving DecidableEq, Repr, Inhabited

/-- `tuple(map(int, linesegs[13:17]))`: a strict `int()` over the
radii slice; `none` models the `ValueError` on malformed text. -/
def parseRadii (segs : List String) : Option (List ℤ) :=
  ((segs.drop 13).take 4).mapM pyIntOfString

/-- The unconditional field assignments of one record line (bdeck.py
lines 248–273); `none` models an uncaught `strptime` `ValueError`. -/
def updateIData (idata : IData) (segs : List String) : Option IData := do
  let time ← parseTimestr (pyStrip (seg segs 2))
  let wind := _safe_int (seg segs 8)
  let lat0 : ℚ := (_safe_int (pyDropLast (seg segs 6)) : ℚ) / 10
  let lon0 : ℚ := (_safe_int (pyDropLast (seg segs 7)) : ℚ) / 10
  let base : IData := { idata with
    _long_format := decide (segs.length > 20),
    basin := seg segs 0,
    number := _safe_int (seg segs 1),
    timestr := pyStrip (seg segs 2),
    time := time,
    technum := pyStrip (seg segs 3),
    techcode := pyStrip (seg segs 4),
    tau := _safe_int (seg segs 5),
    lat := if pyLast (seg segs 6) = 'S' then -lat0 else lat0,
    lon := if pyLast (seg segs 7) = 'W' then -lon0 else lon0,
    wind := wind,
    category := _get_category wind none,
    raw_category := "" }
  if segs.length > 9 then
    pure { base with
      pres := some (_safe_int (seg segs 9)),
      category := _get_category wind (some (pyStrip (seg segs 10))),
      raw_category := pyStrip (seg segs 10) }
  else pure base

/-- The long-format assignments (bdeck.py lines 274–285) up to and
including the `r34` read; `none` models the strict radii `int()`
raising. -/
def updateLong (idata : IData) (segs : List String) : Option IData := do
  let base : IData := { idata with
    r34 := some none, r50 := some none, r64 := some none,
    lci := some (_safe_int (seg segs 17)),
    lci_radius := some (_safe_int (seg segs 18)),
    rmw := some (_safe_int (seg segs 19)) }
  let base : IData := if segs.length > 28 then
    { base with
      name := some (pyStrip (seg segs 27)),
      depth := some (pyStrip (seg segs 28)) }
    else base
  if base.wind > 34 then
    let r ← parseRadii segs
    pure { base with r34 := some (some r) }
  else pure base

/-- The outcome of processing one line of `BDeckFile.read_data`
(bdeck.py lines 235–306): abort with an uncaught exception, end the
read via `break`, move on without emitting (`continue` paths, with
the possibly mutated dict and the lines still to process), or emit
the completed record (`_record_all`) and move on. -/
inductive StepRes where
  | err (msg : String)
  | halt
  | skip (d : IData) (next : List String)
  | emit (d : IData) (next : List String)
deriving DecidableEq, Repr, Inhabited

/-- One iteration of the `while` loop of `BDeckFile.read_data`
(bdeck.py lines 235–306) on the current line, given the lines after
it: the two `continue` filters, the record-field assignments, and the
strict-radii continuation lookahead for `wind >= 50` / `wind > 64`
(whose timestamp mismatch `continue`s — dropping the record and
re-processing the mismatched line — and whose `i == count` check
`break`s without emitting). -/
def readStep (fa tn : Bool) (idata : IData) (line : String) (rest : List String) : StepRes :=
  let linesegs := pySplitComma line
  -- formal-advisory filter
  if fa = true ∧ pyTakeRight (seg linesegs 2) 2 ∉ (["00", "06", "12", "18"] : List String) then
    .skip idata rest
  -- tropical-nature filter
  else if 20 < linesegs.length ∧ tn = true ∧
      pyStrip (seg linesegs 10) ∈ (["SS", "SD", "EX"] : List String) then
    .skip idata rest
  else
    match updateIData idata linesegs with
    | none => .err "time data does not match format"
    | some i1 =>
      if 20 < linesegs.length then
        match updateLong i1 linesegs with
        | none => .err "invalid literal for int"
        | some i2 =>
          if 50 ≤ i2.wind then
            match rest with
            | [] => .halt  -- break: the current record is never emitted
            | line2 :: rest2 =>
              let segs2 := pySplitComma line2
              if pyStrip (seg segs2 2) ≠ i2.timestr then
                -- continue: the record is dropped and the mismatched
                -- line re-processed as the next record
                .skip i2 (line2 :: rest2)
              else
                match parseRadii segs2 with
                | none => .err "invalid literal for int"
                | some r =>
                  let i3 : IData := { i2 with r50 := some (some r) }
                  if 64 < i3.wind then
                    match rest2 with
                    | [] => .halt
                    | line3 :: rest3 =>
                      let segs3 := pySplitComma line3
                      if pyStrip (seg segs3 2) ≠ i3.timestr then
                        .skip i3 (line3 :: rest3)
                      else
                        match parseRadii segs3 with
                        | none => .err "invalid literal for int"
                        | some r2 => .emit { i3 with r64 := some (some r2) } rest3
                  else
                    .emit i3 rest2
          else
            -- `wind > 64` without `wind >= 50` cannot fire, but the
            -- source checks it independently; mirrored as written
            if 64 < i2.wind then
              match rest with
              | [] => .halt
              | line2 :: rest2 =>
                let segs2 := pySplitComma line2
                if pyStrip (seg segs2 2) ≠ i2.timestr then
                  .skip i2 (line2 :: rest2)
                else
                  match parseRadii segs2 with
                  | none => .err "invalid literal for int"
                  | some r2 => .emit { i2 with r64 := some (some r2) } rest2
            else
              .emit i2 rest
      else
        .emit i1 rest

/-- The lines a step leaves to process. -/
def StepRes.nextLen : StepRes → ℕ
  | .skip _ next => next.length
  | .emit _ next => next.length
  | _ => 0

set_option maxHeartbeats 1600000 in
theorem readStep_nextLen_le (fa tn : Bool) (idata : IData) (line : String)
    (rest : List String) : (readStep fa tn idata line rest).nextLen ≤ rest.length := by
  simp only [readStep]
  repeat' split
  all_goals simp only [StepRes.nextLen, List.length_cons]
  all_goals omega

theorem readStep_skip_lt (fa tn : Bool) (idata : IData) (l : String) (r : List String)
    (d : IData) (next : List String) (h : readStep fa tn idata l r = .skip d next) :
    next.length < (l :: r).length := by
  have hle := readStep_nextLen_le fa tn idata l r
  rw [h] at hle
  simp only [StepRes.nextLen] at hle
  simp only [List.length_cons]
  omega

theorem readStep_emit_lt (fa tn : Bool) (idata : IData) (l : String) (r : List String)
    (d : IData) (next : List String) (h : readStep fa tn idata l r = .emit d next) :
    next.length < (l :: r).length := by
  have hle := readStep_nextLen_le fa tn idata l r
  rw [h] at hle
  simp only [StepRes.nextLen] at hle
  simp only [List.length_cons]
  omega

/-- `BDeckFile.read_data` (bdeck.py lines 217–308) over the pre-read
list of lines: iterate `readStep` from the given persistent `idata`
dict, collecting the emitted `_record_all` snapshots; `.error` models
an uncaught exception. -/
def readLoop (fa tn : Bool) (idata : IData) (lines : List String) :
    Except String (List IData) :=
  match lines with
  | [] => .ok []
  | line :: rest =>
    match h : readStep fa tn idata line rest with
    | .err msg => .error msg
    | .halt => .ok []
    | .skip d next => readLoop fa tn d next
    | .emit d next => (readLoop fa tn d next).map (d :: ·)
termination_by lines.length
decreasing_by
  all_goals simp_wf
  · exact readStep_skip_lt _ _ _ _ _ _ _ h
  · exact readStep_emit_lt _ _ _ _ _ _ _ h

theorem readLoop_nil (fa tn : Bool) (idata : IData) :
    readLoop fa tn idata [] = .ok [] := by
  rw [readLoop]

theorem readLoop_cons_err (fa tn : Bool) (idata : IData) (line : String)
    (rest : List String) (msg : String)
    (h : readStep fa tn idata line rest = .err msg) :
    readLoop fa tn idata (line :: rest) = .error msg := by
  rw [readLoop, h]

theorem readLoop_cons_halt (fa tn : Bool) (idata : IData) (line : String)
    (rest : List String) (h : readStep fa tn idata line rest = .halt) :
    readLoop fa tn idata (line :: rest) = .ok [] := by
  rw [readLoop, h]

theorem readLoop_cons_skip (fa tn : Bool) (idata d : IData) (line : String)
    (rest next : List String) (h : readStep fa tn idata line rest = .skip d next) :
    readLoop fa tn idata (line :: rest) = readLoop fa tn d next := by
  rw [readLoop, h]

theorem readLoop_cons_emit (fa tn : Bool) (idata d : IData) (line : String)
    (rest next : List String) (h : readStep fa tn idata line rest = .emit d next) :
    readLoop fa tn idata (line :: rest) = (readLoop fa tn d next).map (d :: ·) := by
  rw [readLoop, h]

/-- `'{:02d}'.format(n)`. -/
def zfill2 (n : ℤ) : String := if 0 ≤ n ∧ n ≤ 9 then "0" ++ toString n else toString n

/-- `metadata['name']` after `_record_meta` ran over every emitted
record: the `idata` name seen at the last strict maximum of wind
(kept unchanged when the `name` key was absent there; initially the
empty string). -/
def metaName (snapshots : List IData) : String :=
  (snapshots.foldl (fun acc d =>
    if d.wind > acc.1 then (d.wind, (d.name).getD acc.2) else acc) ((0 : ℤ), "")).2

/-- The `Storm` construction of `Storm.from_bdeck` (storm.py lines
118–132) from the reader's emitted records: the columnar `data` lists
(`_record_all` appends the current value of every key present, so a
key set once keeps contributing its possibly stale value), the
`raw_category` filter dropping empty entries, and the metadata
`fullcode`/`name`.  `.error` is the `data['time']` `KeyError` of a
parse that emitted no records. -/
def buildStorm (snapshots : List IData) : Except String Storm :=
  if snapshots.isEmpty then .error "KeyError: time" else
  let stype1 := (snapshots.map (fun d => d.raw_category)).filter (fun c => c ≠ "")
  let presList := snapshots.filterMap (fun d => d.pres)
  let nm := metaName snapshots
  .ok {
    atcf_id := (snapshots.getLastD {}).basin ++ zfill2 (snapshots.getLastD {}).number,
    time := snapshots.map (fun d => d.time),
    longitude := snapshots.map (fun d => d.lon),
    latitude := snapshots.map (fun d => d.lat),
    wind := snapshots.map (fun d => d.wind),
    pressure := if presList.isEmpty then none else some presList,
    storm_type := if stype1.isEmpty then none else some stype1,
    name := if nm = "" then none else some nm }

/-- `Storm.from_bdeck` (storm.py lines 118–132): run the reader with
`formal_advisory=False`, then build the `Storm` from the columnar
data. -/
def from_bdeck (lines : List String) : Except String Storm :=
  (readLoop false false {} lines).bind buildStorm

def c3line1 : String :=
  "WP, 01, 2024070100,   , BEST,   0, 150N, 1400E,  55, 1000, TS,  , , 120, 100, 80, 90, 1008, 180, 20, 0"

def c3line2 : String :=
  "WP, 01, 2024070106,   , BEST,   0, 152N, 1402E,  30, 1002, TS,  , , 0, 0, 0, 0, 1008, 180, 20, 0"


theorem updateIData_isSome (idata : IData) (segs : List String)
    (h : (parseTimestr (pyStrip (seg segs 2))).isSome = true) :
    ∃ i1, updateIData idata segs = some i1 := by
  obtain ⟨t, ht⟩ := Option.isSome_iff_exists.mp h
  unfold updateIData
  rw [ht]
  by_cases h9 : segs.length > 9 <;> simp [h9]

/-- On a short-format line whose stripped timestamp parses, the step
either skips (formal-advisory filter) or emits a record, leaving
exactly the remaining lines. -/
theorem readStep_short (fa tn : Bool) (idata : IData) (line : String)
    (rest : List String) (hlen : (pySplitComma line).length ≤ 20)
    (hts : (parseTimestr (pyStrip (seg (pySplitComma line) 2))).isSome = true) :
    readStep fa tn idata line rest = .skip idata rest ∨
      ∃ i1, readStep fa tn idata line rest = .emit i1 rest := by
  simp only [readStep]
  by_cases h1 : fa = true ∧
      pyTakeRight (seg (pySplitComma line) 2) 2 ∉ (["00", "06", "12", "18"] : List String)
  · rw [if_pos h1]
    exact Or.inl rfl
  · rw [if_neg h1, if_neg (by rintro ⟨h20, -⟩; omega)]
    obtain ⟨i1, hi1⟩ := updateIData_isSome idata _ hts
    rw [hi1]
    dsimp only
    rw [if_neg (by omega)]
    exact Or.inr ⟨i1, rfl⟩

/-- The short-format lines on which every field access of
`read_data` is in range in Python: the nine mandatory fields exist,
a line with more than nine fields also has an eleventh
(`linesegs[10]` is read whenever `len(linesegs) > 9`), and the
latitude/longitude fields are nonempty (`linesegs[6][-1]` and
`linesegs[7][-1]` are read unconditionally).  On these lines the
total `seg`/`pyLast` reads coincide with Python's; outside them the
program can abort with an uncaught `IndexError` that the model does
not represent. -/
def wellFormedShortLine (l : String) : Prop :=
  9 ≤ (pySplitComma l).length ∧ (pySplitComma l).length ≤ 20 ∧
  (pySplitComma l).length ≠ 10 ∧
  seg (pySplitComma l) 6 ≠ "" ∧ seg (pySplitComma l) 7 ≠ "" ∧
  (parseTimestr (pyStrip (seg (pySplitComma l) 2))).isSome = true

instance (l : String) : Decidable (wellFormedShortLine l) := by
  unfold wellFormedShortLine
  infer_instance

/-- Any file of well-formed short-format lines is read without
error. -/
theorem readLoop_short_format_ok (fa tn : Bool) (lines : List String) :
    ∀ idata : IData,
      (∀ l ∈ lines, wellFormedShortLine l) →
      ∃ out, readLoop fa tn idata lines = .ok out := by
  induction lines with
  | nil => exact fun idata _ => ⟨[], readLoop_nil fa tn idata⟩
  | cons line rest ih =>
    intro idata hl
    obtain ⟨-, hlen, -, -, -, hts⟩ := hl line (List.mem_cons_self line rest)
    have hrest := fun l hm => hl l (List.mem_cons_of_mem _ hm)
    rcases readStep_short fa tn idata line rest hlen hts with h | ⟨i1, h⟩
    · obtain ⟨out, hout⟩ := ih idata hrest
      exact ⟨out, by rw [readLoop_cons_skip fa tn idata idata line rest rest h, hout]⟩
    · obtain ⟨out, hout⟩ := ih i1 hrest
      exact ⟨i1 :: out,
        by rw [readLoop_cons_emit fa tn idata i1 line rest rest h, hout]; rfl⟩

/-- C3 (amended): during a long-format read with a current record of
wind ≥ 50 kt, the next physical line supplies the 50-kt radii tuple
exactly when it carries the same timestamp (and for wind > 64 kt the
line after that likewise supplies the 64-kt tuple); when a lookahead
line's timestamp differs, the current record is dropped without being
emitted and the mismatched line is re-processed as the start of the
next record (it is not consumed-and-skipped). -/
theorem c3_radii_continuation (fa tn : Bool) (idata i2 : IData) (l1 l2 : String)
    (rest : List String)
    (hf1 : ¬(fa = true ∧
      pyTakeRight (seg (pySplitComma l1) 2) 2 ∉ (["00", "06", "12", "18"] : List String)))
    (hlong : 20 < (pySplitComma l1).length)
    (hf2 : ¬(tn = true ∧
      pyStrip (seg (pySplitComma l1) 10) ∈ (["SS", "SD", "EX"] : List String)))
    (hupd : (updateIData idata (pySplitComma l1)).bind
      (fun i1 => updateLong i1 (pySplitComma l1)) = some i2) :
    -- (a) wind ≥ 50, next line's timestamp differs: the record is
    --     dropped and the mismatched line re-processed
    (50 ≤ i2.wind →
      pyStrip (seg (pySplitComma l2) 2) ≠ i2.timestr →
      readLoop fa tn idata (l1 :: l2 :: rest) = readLoop fa tn i2 (l2 :: rest)) ∧
    -- (b) 50 ≤ wind ≤ 64, same timestamp: the next line supplies r50
    --     and the record is emitted
    (∀ r, 50 ≤ i2.wind → i2.wind ≤ 64 →
      pyStrip (seg (pySplitComma l2) 2) = i2.timestr →
      parseRadii (pySplitComma l2) = some r →
      readLoop fa tn idata (l1 :: l2 :: rest) =
        (readLoop fa tn { i2 with r50 := some (some r) } rest).map
          ({ i2 with r50 := some (some r) } :: ·)) ∧
    -- (c) wind > 64, both lookahead lines share the timestamp: they
    --     supply r50 and r64 and the record is emitted
    (∀ r r2 l3 rest2, rest = l3 :: rest2 → 64 < i2.wind →
      pyStrip (seg (pySplitComma l2) 2) = i2.timestr →
      parseRadii (pySplitComma l2) = some r →
      pyStrip (seg (pySplitComma l3) 2) = i2.timestr →
      parseRadii (pySplitComma l3) = some r2 →
      readLoop fa tn idata (l1 :: l2 :: rest) =
        (readLoop fa tn { i2 with r50 := some (some r), r64 := some (some r2) } rest2).map
          ({ i2 with r50 := some (some r), r64 := some (some r2) } :: ·)) ∧
    -- (d) wind > 64, r50 line matches but the r64 lookahead does not:
    --     the record is dropped and the mismatched line re-processed
    (∀ r l3 rest2, rest = l3 :: rest2 → 64 < i2.wind →
      pyStrip (seg (pySplitComma l2) 2) = i2.timestr →
      parseRadii (pySplitComma l2) = some r →
      pyStrip (seg (pySplitComma l3) 2) ≠ i2.timestr →
      readLoop fa tn idata (l1 :: l2 :: rest) =
        readLoop fa tn { i2 with r50 := some (some r) } (l3 :: rest2)) := by
  obtain ⟨i1, hu1, hu2⟩ :
      ∃ i1, updateIData idata (pySplitComma l1) = some i1 ∧
        updateLong i1 (pySplitComma l1) = some i2 := by
    cases hu : updateIData idata (pySplitComma l1) with
    | none => rw [hu] at hupd; exact absurd hupd (by simp)
    | some i1 => rw [hu] at hupd; exact ⟨i1, rfl, hupd⟩
  have hpre : ∀ rest3 : List String,
      readStep fa tn idata l1 rest3 = (
        if 50 ≤ i2.wind then
          match rest3 with
          | [] => .halt
          | line2 :: rest2 =>
            let segs2 := pySplitComma line2
            if pyStrip (seg segs2 2) ≠ i2.timestr then
              .skip i2 (line2 :: rest2)
            else
              match parseRadii segs2 with
              | none => .err "invalid literal for int"
              | some r =>
                let i3 : IData := { i2 with r50 := some (some r) }
                if 64 < i3.wind then
                  match rest2 with
                  | [] => .halt
                  | line3 :: rest3b =>
                    let segs3 := pySplitComma line3
                    if pyStrip (seg segs3 2) ≠ i3.timestr then
                      .skip i3 (line3 :: rest3b)
                    else
                      match parseRadii segs3 with
                      | none => .err "invalid literal for int"
                      | some r2 => .emit { i3 with r64 := some (some r2) } rest3b
                else
                  .emit i3 rest2
        else
          if 64 < i2.wind then
            match rest3 with
            | [] => .halt
            | line2 :: rest2 =>
              let segs2 := pySplitComma line2
              if pyStrip (seg segs2 2) ≠ i2.timestr then
                .skip i2 (line2 :: rest2)
              else
                match parseRadii segs2 with
                | none => .err "invalid literal for int"
                | some r2 => .emit { i2 with r64 := some (some r2) } rest2
          else
            .emit i2 rest3) := by
    intro rest3
    simp only [readStep]
    rw [if_neg hf1, if_neg (fun hc => hf2 ⟨hc.2.1, hc.2.2⟩), hu1]
    dsimp only
    rw [if_pos hlong, hu2]
  refine ⟨?_, ?_, ?_, ?_⟩
  · intro h50 hne
    refine readLoop_cons_skip fa tn idata i2 l1 (l2 :: rest) (l2 :: rest) ?_
    rw [hpre]
    rw [if_pos h50]
    dsimp only
    rw [if_pos hne]
  · intro r h50 h64 heq hr
    refine readLoop_cons_emit fa tn idata _ l1 (l2 :: rest) rest ?_
    rw [hpre]
    rw [if_pos h50]
    dsimp only
    rw [if_neg (fun hne => hne heq), hr]
    dsimp only
    rw [if_neg (not_lt.mpr h64)]
  · intro r r2 l3 rest2 hrest h64 heq hr heq3 hr2
    subst hrest
    refine readLoop_cons_emit fa tn idata _ l1 (l2 :: l3 :: rest2) rest2 ?_
    rw [hpre]
    rw [if_pos (by omega)]
    (try dsimp only)
    rw [if_neg (fun hne => hne heq), hr]
    (try simp only [])
    rw [if_pos h64]
    (try simp only [])
    rw [if_neg (fun hne => hne heq3), hr2]
  · intro r l3 rest2 hrest h64 heq hr hne3
    subst hrest
    refine readLoop_cons_skip fa tn idata _ l1 (l2 :: l3 :: rest2) (l3 :: rest2) ?_
    rw [hpre]
    rw [if_pos (by omega)]
    (try dsimp only)
    rw [if_neg (fun hne => hne heq), hr]
    (try simp only [])
    rw [if_pos h64]
    (try simp only [])
    rw [if_pos hne3]

/-- The `idata` dict after `c3line1`'s record assignments. -/
def c3i2 : IData :=
  ((updateIData {} (pySplitComma c3line1)).bind
    (fun i1 => updateLong i1 (pySplitComma c3line1))).getD {}

/-- The `idata` dict after `c3line2`'s record assignments on top of
`c3i2`. -/
def c3iB : IData :=
  ((updateIData c3i2 (pySplitComma c3line2)).bind
    (fun i1 => updateLong i1 (pySplitComma c3line2))).getD {}

set_option maxRecDepth 100000 in
/-- C3 counterexample: `c3line1` (wind 55, timestamp 2024070100) is
followed by `c3line2` with a different timestamp (2024070106).  The
claim predicts the mismatched line is consumed-and-skipped while
`c3line1`'s record is still emitted; actually `c3line1`'s record is
dropped and the output holds exactly one record — the one parsed from
the "skipped" line `c3line2`. -/
theorem c3_mismatch_counterexample :
    readLoop false false {} [c3line1, c3line2] = .ok [c3iB] ∧
    c3iB.timestr = "2024070106" ∧
    pyStrip (seg (pySplitComma c3line1) 2) = "2024070100" := by
  refine ⟨?_, by with_unfolding_all decide, by decide⟩
  rw [readLoop_cons_skip false false {} c3i2 c3line1 [c3line2] [c3line2]
      (by with_unfolding_all decide),
    readLoop_cons_emit false false c3i2 c3iB c3line2 [] []
      (by with_unfolding_all decide),
    readLoop_nil]
  rfl

set_option maxRecDepth 100000 in
theorem c3_radii_continuation_witness :
    readLoop false false {} [c3line1, c3line2] = readLoop false false c3i2 [c3line2] :=
  (c3_radii_continuation false false {} c3i2 c3line1 c3line2 []
      (by decide) (by decide) (by decide) (by with_unfolding_all decide)).1
    (by with_unfolding_all decide) (by with_unfolding_all decide)

/-- A long-format record line (21 fields) with wind 40 kt whose first
radii quadrant field is the non-numeric text `XX`. -/
def c4badline : String :=
  "WP, 01, 2024070100,   , BEST,   0, 150N, 1400E,  40, 1000, TS,  , , XX, 0, 0, 0, 1004, 200, 30, 0"

/-- A well-formed short-format record line (9 fields). -/
def c4shortline : String :=
  "WP, 02, 2024070106,   , BEST,   0, 155N, 1405E, 30"

/-- C4 (amended): `_safe_int` does substitute the sentinel −999 for
malformed integer text, and a read of well-formed short-format
records — every Python field access in range, nonempty lat/lon
fields, parsing timestamps — never raises; but the wind-radii
quadrant fields of long-format records are parsed with a bare `int`,
outside `_safe_int`'s protection, so a malformed radii field aborts
the whole read.  (Structurally truncated lines or empty lat/lon
fields abort the Python read with an `IndexError` the model does not
represent; the well-formedness hypothesis excludes them.) -/
theorem c4_safe_int_fail_soft :
    (∀ s, pyIntOfString s = none → _safe_int s = -999) ∧
    (∀ (fa tn : Bool) (idata : IData) (lines : List String),
      (∀ l ∈ lines, wellFormedShortLine l) →
      ∃ out, readLoop fa tn idata lines = .ok out) := by
  constructor
  · intro s h
    rw [_safe_int, h]
    rfl
  · intro fa tn idata lines h
    exact readLoop_short_format_ok fa tn lines idata h

set_option maxRecDepth 100000 in
/-- C4 counterexample: the malformed radii field `XX` of a long-format
record aborts the whole read with an uncaught `ValueError` instead of
becoming the −999 sentinel. -/
theorem c4_strict_radii_counterexample :
    pyIntOfString " XX" = none ∧
    readLoop false false {} [c4badline] = .error "invalid literal for int" := by
  refine ⟨by decide, ?_⟩
  exact readLoop_cons_err false false {} c4badline [] "invalid literal for int"
    (by with_unfolding_all decide)

set_option maxRecDepth 100000 in
theorem c4_safe_int_fail_soft_witness :
    (pyIntOfString "1000mb" = none ∧ _safe_int "1000mb" = -999) ∧
    ∃ out, readLoop false false {} [c4shortline] = .ok out :=
  ⟨⟨by decide, c4_safe_int_fail_soft.1 "1000mb" (by decide)⟩,
    c4_safe_int_fail_soft.2 false false {} [c4shortline] (by decide)⟩

/-- A long-format record line with raw category `TS` and wind 30. -/
def c5line1 : String :=
  "WP, 01, 2024070100,   , BEST,   0, 150N, 1400E,  30, 1000, TS,  , , 0, 0, 0, 0, 1008, 180, 20, 0"

/-- The record parsed from `c5line1`. -/
def c5d1 : IData :=
  ((updateIData {} (pySplitComma c5line1)).bind
    (fun i1 => updateLong i1 (pySplitComma c5line1))).getD {}

/-- The record parsed from the short line `c4shortline` on top of
`c5d1` (short lines never reach `updateLong`). -/
def c5d2 : IData := (updateIData c5d1 (pySplitComma c4shortline)).getD {}

/-- The storm `from_bdeck` builds from `c5line1` and `c4shortline`. -/
def c5storm : Storm := ((buildStorm [c5d1, c5d2]).toOption).getD default

set_option maxRecDepth 100000 in
theorem c5_readLoop_pair :
    readLoop false false {} [c5line1, c4shortline] = .ok [c5d1, c5d2] := by
  rw [readLoop_cons_emit false false {} c5d1 c5line1 [c4shortline] [c4shortline]
      (by with_unfolding_all decide),
    readLoop_cons_emit false false c5d1 c5d2 c4shortline [] []
      (by with_unfolding_all decide),
    readLoop_nil]
  rfl

/-- C5 (amended): for a directly constructed storm with equal-length
inputs every derived array keeps that length, and every storm built
by `from_bdeck` has time/longitude/latitude/wind/mjd/synoptic arrays
of equal length — but its `storm_type` (and hence the tropical-flag
array) can be shorter, because `from_bdeck` filters empty
raw-category entries out of `storm_type`. -/
theorem c5_array_lengths :
    (∀ s : Storm,
      s.longitude.length = s.time.length →
      s.latitude.length = s.time.length →
      s.wind.length = s.time.length →
      (∀ p, s.pressure = some p → p.length = s.time.length) →
      (∀ st, s.storm_type = some st → st.length = s.time.length) →
      s.mjd.length = s.time.length ∧
      s.synoptic_flag.length = s.time.length ∧
      s.tropical_flag.length = s.time.length) ∧
    (∀ (lines : List String) (s : Storm), from_bdeck lines = .ok s →
      s.longitude.length = s.time.length ∧
      s.latitude.length = s.time.length ∧
      s.wind.length = s.time.length ∧
      s.mjd.length = s.time.length ∧
      s.synoptic_flag.length = s.time.length) := by
  constructor
  · intro s hlon _hlat _hw _hp hst
    refine ⟨?_, ?_, ?_⟩
    · simp [Storm.mjd]
    · simp [Storm.synoptic_flag]
    · rw [Storm.tropical_flag]
      cases hty : s.storm_type with
      | none => simpa using hlon
      | some st => simpa using hst st hty
  · intro lines s h
    rw [from_bdeck] at h
    cases hr : readLoop false false {} lines with
    | error e =>
      rw [hr] at h
      simp [Except.bind] at h
    | ok snaps =>
      rw [hr] at h
      replace h : buildStorm snaps = .ok s := h
      rw [buildStorm] at h
      by_cases he : snaps.isEmpty
      · rw [if_pos he] at h
        simp at h
      · rw [if_neg he] at h
        simp only [Except.ok.injEq] at h
        subst h
        simp [Storm.mjd, Storm.synoptic_flag]

set_option maxRecDepth 100000 in
/-- C5 counterexample: a long-format record with raw category `TS`
followed by a short-format record (empty raw category) gives a storm
with two samples but a single-entry `storm_type`, so the tropical
flag array is shorter than the time array. -/
theorem c5_flag_length_counterexample :
    from_bdeck [c5line1, c4shortline] = .ok c5storm ∧
    c5storm.time.length = 2 ∧
    c5storm.storm_type = some ["TS"] ∧
    c5storm.tropical_flag.length = 1 := by
  refine ⟨?_, ?_, ?_, ?_⟩
  · rw [from_bdeck, c5_readLoop_pair]
    with_unfolding_all decide
  · with_unfolding_all decide
  · with_unfolding_all decide
  · with_unfolding_all decide

/-- A directly constructed single-sample storm. -/
def c5stormW : Storm :=
  { atcf_id := "WP01", time := [{ year := 2024, month := 7, day := 1 }],
    longitude := [140], latitude := [20], wind := [50],
    pressure := some [1000], storm_type := some ["TS"] }

set_option maxRecDepth 100000 in
theorem c5_array_lengths_witness :
    (c5stormW.mjd.length = c5stormW.time.length ∧
      c5stormW.synoptic_flag.length = c5stormW.time.length ∧
      c5stormW.tropical_flag.length = c5stormW.time.length) ∧
    (c5storm.longitude.length = c5storm.time.length ∧
      c5storm.latitude.length = c5storm.time.length ∧
      c5storm.wind.length = c5storm.time.length ∧
      c5storm.mjd.length = c5storm.time.length ∧
      c5storm.synoptic_flag.length = c5storm.time.length) := by
  constructor
  · exact c5_array_lengths.1 c5stormW rfl rfl rfl
      (fun p hp => by injection hp with h; rw [← h]; rfl)
      (fun st hst => by injection hst with h; rw [← h]; rfl)
  · refine c5_array_lengths.2 [c5line1, c4shortline] c5storm ?_
    rw [from_bdeck, c5_readLoop_pair]
    with_unfolding_all decide

-- C9: SeasonDataset.daily_ace -----------------------------------------

/-- Association-list lookup for the `season_dict`. -/
def seasonLookup : List (ℤ × List Storm) → ℤ → Option (List Storm)
  | [], _ => none
  | (k, v) :: rest, key => if k = key then some v else seasonLookup rest key

/-- One storm's contribution to the season's daily ACE array
(season.py lines 39–45): for every day bucket of `storm.daily_ace`,
convert the MJD key to a day-of-year index relative to Jan 1 of the
target year and add the bucket's total (or single-basin) ACE when the
index is within the array. -/
def accumStorm (year dataSize : ℕ) (basin : Option Basin) (ace : List ℚ)
    (s : Storm) : List ℚ :=
  s.daily_ace.foldl (fun acc p =>
    let day : ℤ := pyTrunc ((p.1 : ℚ) -
      datetime_to_mjd { year := year, month := 1, day := 1 })
    if 0 ≤ day ∧ day < (dataSize : ℤ) then
      acc.set day.toNat (acc.getD day.toNat 0 +
        (match basin with
         | none => p.2.total
         | some b => p.2.get b))
    else acc) ace

/-- `SeasonDataset.daily_ace` (season.py lines 25–49) over an
association-list `season_dict`: the `for`–`else` year check (the
returned `ValueError` is the `.error` case), the accumulation over
the seasons `year-1 .. year+1`, and the `push_leap_day` fold
(`ace[59] += ace[60]; np.delete(ace, 60)`). -/
def seasonDailyAce (sd : List (ℤ × List Storm)) (year : ℕ)
    (push_leap_day : Bool) (basin : Option Basin) : Except String (List ℚ) :=
  if (seasonLookup sd ((year : ℤ) - 1)).isNone ∧
      (seasonLookup sd (year : ℤ)).isNone ∧
      (seasonLookup sd ((year : ℤ) + 1)).isNone then
    .error "Year not in dataset"
  else
    let dataSize : ℕ := if isleap year then 366 else 365
    let ace := [((year : ℤ) - 1), (year : ℤ), ((year : ℤ) + 1)].foldl
      (fun acc yr =>
        match seasonLookup sd yr with
        | none => acc
        | some storms => storms.foldl (fun a s => accumStorm year dataSize basin a s) acc)
      (List.replicate dataSize 0)
    if push_leap_day = true ∧ isleap year = true then
      let ace2 := ace.set 59 (ace.getD 59 0 + ace.getD 60 0)
      .ok (ace2.take 60 ++ ace2.drop 61)
    else .ok ace

theorem accumStorm_length (year dataSize : ℕ) (basin : Option Basin)
    (ace : List ℚ) (s : Storm) :
    (accumStorm year dataSize basin ace s).length = ace.length := by
  rw [accumStorm]
  generalize s.daily_ace = L
  induction L generalizing ace with
  | nil => rfl
  | cons p rest ih =>
    rw [List.foldl_cons]
    rw [ih]
    dsimp only
    split
    · exact List.length_set ..
    · rfl

theorem storms_fold_length (year dataSize : ℕ) (basin : Option Basin)
    (storms : List Storm) (ace : List ℚ) :
    (storms.foldl (fun a s => accumStorm year dataSize basin a s) ace).length =
      ace.length := by
  induction storms generalizing ace with
  | nil => rfl
  | cons s rest ih =>
    rw [List.foldl_cons, ih, accumStorm_length]

theorem years_fold_length (sd : List (ℤ × List Storm)) (year dataSize : ℕ)
    (basin : Option Basin) (yrs : List ℤ) (init : List ℚ) :
    (yrs.foldl (fun acc yr =>
      match seasonLookup sd yr with
      | none => acc
      | some storms => storms.foldl (fun a s => accumStorm year dataSize basin a s) acc)
      init).length = init.length := by
  induction yrs generalizing init with
  | nil => rfl
  | cons y rest ih =>
    rw [List.foldl_cons, ih]
    cases seasonLookup sd y with
    | none => rfl
    | some storms => exact storms_fold_length ..

/-- Index bookkeeping of the leap-day fold: `set 59` then delete
index 60. -/
theorem pushLeapFold_spec (A : List ℚ) (hA : A.length = 366) :
    ((A.set 59 (A.getD 59 0 + A.getD 60 0)).take 60 ++
      (A.set 59 (A.getD 59 0 + A.getD 60 0)).drop 61).length = 365 ∧
    ((A.set 59 (A.getD 59 0 + A.getD 60 0)).take 60 ++
      (A.set 59 (A.getD 59 0 + A.getD 60 0)).drop 61).getD 59 0 =
      A.getD 59 0 + A.getD 60 0 ∧
    (∀ i, i < 59 →
      ((A.set 59 (A.getD 59 0 + A.getD 60 0)).take 60 ++
        (A.set 59 (A.getD 59 0 + A.getD 60 0)).drop 61).getD i 0 = A.getD i 0) ∧
    (∀ i, 60 ≤ i → i < 365 →
      ((A.set 59 (A.getD 59 0 + A.getD 60 0)).take 60 ++
        (A.set 59 (A.getD 59 0 + A.getD 60 0)).drop 61).getD i 0 =
        A.getD (i + 1) 0) := by
  have hL : (A.set 59 (A.getD 59 0 + A.getD 60 0)).length = 366 := by
    rw [List.length_set, hA]
  have htk : ((A.set 59 (A.getD 59 0 + A.getD 60 0)).take 60).length = 60 := by
    rw [List.length_take, hL]
    rfl
  refine ⟨?_, ?_, ?_, ?_⟩
  · rw [List.length_append, htk, List.length_drop, hL]
  · rw [List.getD_eq_getElem?_getD,
      List.getElem?_append_left (by rw [htk]; omega),
      List.getElem?_take, if_pos (by omega),
      List.getElem?_set_self (by omega)]
    rfl
  · intro i hi
    rw [List.getD_eq_getElem?_getD,
      List.getElem?_append_left (by rw [htk]; omega),
      List.getElem?_take, if_pos (by omega),
      List.getElem?_set_ne (by omega),
      ← List.getD_eq_getElem?_getD]
  · intro i h60 h365
    rw [List.getD_eq_getElem?_getD,
      List.getElem?_append_right (by rw [htk]; omega),
      List.getElem?_drop, htk,
      show 61 + (i - 60) = i + 1 by omega,
      List.getElem?_set_ne (by omega),
      ← List.getD_eq_getElem?_getD]

/-- C9: for a leap target year present in the dataset (directly or
via an adjacent season), the `push_leap_day=True` array has length
365, its entry 59 is the unfolded Feb-29 entry (59) plus the unfolded
Mar-1 entry (60), entries below 59 are unchanged, and entries from 60
on are the unfolded entries shifted down by one. -/
theorem c9_push_leap_day (sd : List (ℤ × List Storm)) (year : ℕ)
    (basin : Option Basin) (hleap : isleap year = true)
    (hyr : ¬((seasonLookup sd ((year : ℤ) - 1)).isNone ∧
      (seasonLookup sd (year : ℤ)).isNone ∧
      (seasonLookup sd ((year : ℤ) + 1)).isNone)) :
    ∃ unf fold, seasonDailyAce sd year false basin = .ok unf ∧
      seasonDailyAce sd year true basin = .ok fold ∧
      unf.length = 366 ∧ fold.length = 365 ∧
      fold.getD 59 0 = unf.getD 59 0 + unf.getD 60 0 ∧
      (∀ i, i < 59 → fold.getD i 0 = unf.getD i 0) ∧
      (∀ i, 60 ≤ i → i < 365 → fold.getD i 0 = unf.getD (i + 1) 0) := by
  obtain ⟨A, h1, h2, hA⟩ : ∃ A, seasonDailyAce sd year false basin = .ok A ∧
      seasonDailyAce sd year true basin =
        .ok ((A.set 59 (A.getD 59 0 + A.getD 60 0)).take 60 ++
          (A.set 59 (A.getD 59 0 + A.getD 60 0)).drop 61) ∧
      A.length = 366 := by
    refine ⟨[((year : ℤ) - 1), (year : ℤ), ((year : ℤ) + 1)].foldl
      (fun acc yr =>
        match seasonLookup sd yr with
        | none => acc
        | some storms => storms.foldl
            (fun a s => accumStorm year (if isleap year then 366 else 365) basin a s) acc)
      (List.replicate (if isleap year then 366 else 365) 0), ?_, ?_, ?_⟩
    · simp only [seasonDailyAce, if_neg hyr]
      rw [if_neg (by simp)]
    · simp only [seasonDailyAce, if_neg hyr]
      rw [if_pos (by simp [hleap])]
    · rw [years_fold_length, List.length_replicate, hleap]
      rfl
  obtain ⟨hlen, he59, hlo, hhi⟩ := pushLeapFold_spec A hA
  exact ⟨A, _, h1, h2, hA, hlen, he59, hlo, hhi⟩

/-- A two-sample leap-season storm (Feb 29 and Mar 1, 2024). -/
def stormC9w : Storm :=
  { atcf_id := "WP02", time := [⟨2024, 2, 29, 0, 0, 0, 0⟩, ⟨2024, 3, 1, 0, 0, 0, 0⟩],
    longitude := [140, 141], latitude := [20, 21], wind := [60, 60] }

/-- A one-season dataset containing `stormC9w` under season 2024. -/
def c9sd : List (ℤ × List Storm) := [((2024 : ℤ), [stormC9w])]

theorem c9_push_leap_day_witness :
    ∃ unf fold, seasonDailyAce c9sd 2024 false none = .ok unf ∧
      seasonDailyAce c9sd 2024 true none = .ok fold ∧
      unf.length = 366 ∧ fold.length = 365 ∧
      fold.getD 59 0 = unf.getD 59 0 + unf.getD 60 0 ∧
      (∀ i, i < 59 → fold.getD i 0 = unf.getD i 0) ∧
      (∀ i, 60 ≤ i → i < 365 → fold.getD i 0 = unf.getD (i + 1) 0) :=
  c9_push_leap_day c9sd 2024 none (by decide) (by decide)

-- C8: utils.find_overlaps ----------------------------------------------

/-- The sort key's second component (utils.py line 93): `0` for a
`'start'` event, `1` for an `'end'` event, so starts come first on
time ties.  An event is `(time, is_start, interval index)`. -/
def evKey {α : Type} (e : α × Bool × ℕ) : ℕ := if e.2.1 then 0 else 1

/-- The comparison `events.sort(key=lambda x: (x[0], 0 if start else 1))`
sorts by (utils.py line 93): lexicographic on (time, event kind). -/
def evLE {α : Type} [LinearOrder α] (a b : α × Bool × ℕ) : Bool :=
  decide (a.1 < b.1 ∨ (a.1 = b.1 ∧ evKey a ≤ evKey b))

/-- Insertion into the strictly sorted list representing the Python
`set` of active interval indices (`sorted(active)` is then the list
itself). -/
def setInsert (i : ℕ) : List ℕ → List ℕ
  | [] => [i]
  | j :: rest =>
    if i < j then i :: j :: rest
    else if i = j then j :: rest
    else j :: setInsert i rest

/-- Processing one event against the active set (utils.py lines
106–109): `active.add(idx)` for a start, `active.remove(idx)` for an
end.  (`remove`'s `KeyError` cannot fire for interval lists with
start ≤ end, the domain of the claim.) -/
def stepActive {α : Type} (acc : List ℕ) (e : α × Bool × ℕ) : List ℕ :=
  if e.2.1 then setInsert e.2.2 acc else acc.erase e.2.2

/-- The event sweep of `find_overlaps` (utils.py lines 95–113): before
each event, if time advanced past `prev_time` while at least two
intervals are active, emit `(prev_time, time, sorted(active))`; then
process the event. -/
def sweep {α : Type} [LinearOrder α] :
    List (α × Bool × ℕ) → List ℕ → Option α → List (α × α × List ℕ)
  | [], _, _ => []
  | (t, isStart, idx) :: rest, active, prev =>
    (match prev with
     | some p => if p < t ∧ 2 ≤ active.length then [(p, t, active)] else []
     | none => ([] : List (α × α × List ℕ))) ++
    sweep rest (stepActive active (t, isStart, idx)) (some t)

/-- The event list of `find_overlaps` (utils.py lines 87–90):
`(start, 'start', i)` and `(end, 'end', i)` for each interval. -/
def mkEvents {α : Type} (intervals : List (α × α)) : List (α × Bool × ℕ) :=
  intervals.enum.flatMap (fun p => [(p.2.1, true, p.1), (p.2.2, false, p.1)])

/-- `utils.find_overlaps` (utils.py lines 85–113): build the
start/end events of every interval, sort them by (time, kind) and
run the sweep.  The sweep's output only depends on the sorted order,
so the stable `mergeSort` matches Python's stable `sort`. -/
def find_overlaps {α : Type} [LinearOrder α] (intervals : List (α × α)) :
    List (α × α × List ℕ) :=
  sweep ((mkEvents intervals).mergeSort evLE) [] none

/-- Spec-side (from the claim's words): the indices of the intervals
containing time `p` (start ≤ p < end), in increasing order. -/
def activeSem {α : Type} [LinearOrder α] (intervals : List (α × α)) (p : α) : List ℕ :=
  intervals.enum.filterMap
    (fun e => if e.2.1 ≤ p ∧ p < e.2.2 then some e.1 else none)

/-- Spec-side: all interval boundaries, sorted, without repetition. -/
def eventTimes {α : Type} [LinearOrder α] (intervals : List (α × α)) : List α :=
  ((intervals.flatMap fun pr => [pr.1, pr.2]).insertionSort (· ≤ ·)).dedup

/-- Spec-side: walk consecutive boundary times and emit each span on
which at least two intervals are active, with the indices of the
active intervals. -/
def specFrom {α : Type} [LinearOrder α] (intervals : List (α × α)) :
    List α → List (α × α × List ℕ)
  | t0 :: t1 :: ts =>
    (if 2 ≤ (activeSem intervals t0).length
      then [(t0, t1, activeSem intervals t0)] else []) ++
    specFrom intervals (t1 :: ts)
  | _ => []

/-- Spec-side rendering of claim C8's sweep description. -/
def specOverlaps {α : Type} [LinearOrder α] (intervals : List (α × α)) :
    List (α × α × List ℕ) :=
  specFrom intervals (eventTimes intervals)

theorem mem_setInsert (i j : ℕ) : ∀ l : List ℕ, j ∈ setInsert i l ↔ j = i ∨ j ∈ l := by
  intro l
  induction l with
  | nil => simp [setInsert]
  | cons a rest ih =>
    rw [setInsert]
    split
    · simp only [List.mem_cons]
    · split
      · rename_i hia
        subst hia
        simp only [List.mem_cons]
        tauto
      · simp only [List.mem_cons, ih]
        tauto

theorem pairwise_setInsert (i : ℕ) : ∀ l : List ℕ, l.Pairwise (· < ·) →
    (setInsert i l).Pairwise (· < ·) := by
  intro l
  induction l with
  | nil => simp [setInsert]
  | cons a rest ih =>
    intro hp
    rw [List.pairwise_cons] at hp
    rw [setInsert]
    split
    · rename_i hia
      rw [List.pairwise_cons]
      constructor
      · intro b hb
        rcases List.mem_cons.mp hb with rfl | hb
        · exact hia
        · exact lt_trans hia (hp.1 b hb)
      · rw [List.pairwise_cons]
        exact hp
    · split
      · rw [List.pairwise_cons]
        exact hp
      · rename_i h1 h2
        rw [List.pairwise_cons]
        constructor
        · intro b hb
          rcases (mem_setInsert i b rest).mp hb with rfl | hb
          · omega
          · exact hp.1 b hb
        · exact ih hp.2

theorem strictSorted_eq_of_mem_iff : ∀ {l₁ l₂ : List ℕ},
    l₁.Pairwise (· < ·) → l₂.Pairwise (· < ·) → (∀ j, j ∈ l₁ ↔ j ∈ l₂) → l₁ = l₂ := by
  intro l₁
  induction l₁ with
  | nil =>
    intro l₂ _ _ hm
    cases l₂ with
    | nil => rfl
    | cons b l₂ => exact absurd ((hm b).mpr (List.mem_cons_self b l₂)) (by simp)
  | cons a l₁ ih =>
    intro l₂ h₁ h₂ hm
    cases l₂ with
    | nil => exact absurd ((hm a).mp (List.mem_cons_self a l₁)) (by simp)
    | cons b l₂ =>
      rw [List.pairwise_cons] at h₁ h₂
      have hab : a = b := by
        rcases List.mem_cons.mp ((hm a).mp (List.mem_cons_self a l₁)) with h | h
        · exact h
        · rcases List.mem_cons.mp ((hm b).mpr (List.mem_cons_self b l₂)) with h' | h'
          · omega
          · have := h₁.1 b h'
            have := h₂.1 a h
            omega
      subst hab
      have htail : ∀ j, j ∈ l₁ ↔ j ∈ l₂ := by
        intro j
        constructor
        · intro hj
          have := h₁.1 j hj
          rcases List.mem_cons.mp ((hm j).mp (List.mem_cons_of_mem a hj)) with h | h
          · omega
          · exact h
        · intro hj
          have := h₂.1 j hj
          rcases List.mem_cons.mp ((hm j).mpr (List.mem_cons_of_mem a hj)) with h | h
          · omega
          · exact h
      rw [ih h₁.2 h₂.2 htail]

theorem mem_activeSem {α : Type} [LinearOrder α] (intervals : List (α × α)) (p : α)
    (j : ℕ) : j ∈ activeSem intervals p ↔
      ∃ pr, intervals[j]? = some pr ∧ pr.1 ≤ p ∧ p < pr.2 := by
  rw [activeSem, List.mem_filterMap]
  constructor
  · rintro ⟨e, he, hf⟩
    split at hf
    · rename_i hcond
      obtain rfl : e.1 = j := Option.some.inj hf
      exact ⟨e.2, List.mem_enum_iff_getElem?.mp he, hcond⟩
    · exact absurd hf (by simp)
  · rintro ⟨pr, hpr, h1, h2⟩
    exact ⟨(j, pr), List.mem_enum_iff_getElem?.mpr hpr, by rw [if_pos ⟨h1, h2⟩]⟩

theorem pairwise_activeSem {α : Type} [LinearOrder α] (intervals : List (α × α))
    (p : α) : (activeSem intervals p).Pairwise (· < ·) := by
  rw [activeSem]
  refine @List.Pairwise.filterMap ℕ (ℕ × α × α) (fun a b => a.1 < b.1)
    (fun a b => a < b) _ ?_ _ ?_
  · intro a b hab c hc d hd
    split at hc
    · split at hd
      · obtain rfl := Option.some.inj hc
        obtain rfl := Option.some.inj hd
        exact hab
      · exact absurd hd (by simp)
    · exact absurd hc (by simp)
  · have h := List.pairwise_lt_range intervals.length
    rw [← List.enum_map_fst intervals, List.pairwise_map] at h
    exact h

theorem mem_mkEvents {α : Type} (intervals : List (α × α)) (t : α) (b : Bool)
    (j : ℕ) : (t, b, j) ∈ mkEvents intervals ↔
      ∃ pr, intervals[j]? = some pr ∧ (if b then pr.1 else pr.2) = t := by
  rw [mkEvents, List.mem_flatMap]
  constructor
  · rintro ⟨e, he, hmem⟩
    simp only [List.mem_cons, List.not_mem_nil, or_false, Prod.mk.injEq] at hmem
    rcases hmem with ⟨h1, h2, h3⟩ | ⟨h1, h2, h3⟩
    · subst h1 h2 h3
      exact ⟨e.2, List.mem_enum_iff_getElem?.mp he, rfl⟩
    · subst h1 h2 h3
      exact ⟨e.2, List.mem_enum_iff_getElem?.mp he, rfl⟩
  · rintro ⟨pr, hpr, hif⟩
    refine ⟨(j, pr), List.mem_enum_iff_getElem?.mpr hpr, ?_⟩
    cases b
    · simp at hif
      simp [hif]
    · simp at hif
      simp [hif]

theorem sweep_group_tail {α : Type} [LinearOrder α] :
    ∀ (G : List (α × Bool × ℕ)) (R : List (α × Bool × ℕ)) (A : List ℕ) (t0 : α),
      (∀ e ∈ G, e.1 = t0) →
      sweep (G ++ R) A (some t0) = sweep R (G.foldl stepActive A) (some t0) := by
  intro G
  induction G with
  | nil => intro R A t0 _; rfl
  | cons e G ih =>
    intro R A t0 hG
    obtain ⟨t, isStart, idx⟩ := e
    have ht : t = t0 := hG (t, isStart, idx) (List.mem_cons_self ..)
    subst ht
    rw [List.cons_append, sweep]
    rw [if_neg (by rintro ⟨h, -⟩; exact absurd h (lt_irrefl t))]
    rw [List.nil_append, List.foldl_cons]
    exact ih R (stepActive A (t, isStart, idx)) t
      (fun e he => hG e (List.mem_cons_of_mem _ he))

theorem sweep_group {α : Type} [LinearOrder α] (G R : List (α × Bool × ℕ))
    (A : List ℕ) (p t0 : α) (hG : ∀ e ∈ G, e.1 = t0) (hne : G ≠ [])
    (hp : p < t0) :
    sweep (G ++ R) A (some p) =
      (if 2 ≤ A.length then [(p, t0, A)] else []) ++
        sweep R (G.foldl stepActive A) (some t0) := by
  cases G with
  | nil => exact absurd rfl hne
  | cons e G =>
    obtain ⟨t, isStart, idx⟩ := e
    have ht : t = t0 := hG (t, isStart, idx) (List.mem_cons_self ..)
    subst ht
    rw [List.cons_append, sweep]
    rw [List.foldl_cons]
    rw [sweep_group_tail G R (stepActive A (t, isStart, idx)) t
      (fun e he => hG e (List.mem_cons_of_mem _ he))]
    by_cases h2 : 2 ≤ A.length
    · rw [if_pos ⟨hp, h2⟩, if_pos h2]
    · rw [if_neg (by rintro ⟨-, h⟩; exact h2 h), if_neg h2]

theorem sweep_init {α : Type} [LinearOrder α] (G R : List (α × Bool × ℕ))
    (A : List ℕ) (t0 : α) (hG : ∀ e ∈ G, e.1 = t0) (hne : G ≠ []) :
    sweep (G ++ R) A none = sweep R (G.foldl stepActive A) (some t0) := by
  cases G with
  | nil => exact absurd rfl hne
  | cons e G =>
    obtain ⟨t, isStart, idx⟩ := e
    have ht : t = t0 := hG (t, isStart, idx) (List.mem_cons_self ..)
    subst ht
    rw [List.cons_append, sweep, List.nil_append, List.foldl_cons]
    exact sweep_group_tail G R (stepActive A (t, isStart, idx)) t
      (fun e he => hG e (List.mem_cons_of_mem _ he))

theorem starts_then_ends {α : Type} [LinearOrder α] :
    ∀ (G : List (α × Bool × ℕ)) (t0 : α),
      G.Pairwise (fun a b => evLE a b = true) → (∀ e ∈ G, e.1 = t0) →
      ∃ S Ends, G = S ++ Ends ∧ (∀ e ∈ S, e.2.1 = true) ∧
        (∀ e ∈ Ends, e.2.1 = false) := by
  intro G
  induction G with
  | nil => exact fun t0 _ _ => ⟨[], [], rfl, by simp, by simp⟩
  | cons e G ih =>
    intro t0 hs ht
    obtain ⟨S, Ends, hsplit, hS, hE⟩ := ih t0 hs.of_cons
      (fun x hx => ht x (List.mem_cons_of_mem _ hx))
    cases hb : e.2.1 with
    | true =>
      exact ⟨e :: S, Ends, by rw [List.cons_append, hsplit],
        fun x hx => by
          rcases List.mem_cons.mp hx with rfl | hx
          · exact hb
          · exact hS x hx, hE⟩
    | false =>
      -- an end event: everything after it at the same time is an end
      refine ⟨[], e :: G, by rw [List.nil_append], by simp, ?_⟩
      intro x hx
      rcases List.mem_cons.mp hx with rfl | hx
      · exact hb
      · have hle := (List.pairwise_cons.mp hs).1 x hx
        rw [evLE, decide_eq_true_iff] at hle
        have hex : e.1 = t0 := ht e (List.mem_cons_self ..)
        have hxx : x.1 = t0 := ht x (List.mem_cons_of_mem _ hx)
        rcases hle with h | ⟨-, hk⟩
        · rw [hex, hxx] at h; exact absurd h (lt_irrefl t0)
        · rw [evKey, evKey, hb] at hk
          by_cases hxb : x.2.1 = true
          · rw [if_pos hxb] at hk
            simp at hk
          · exact Bool.eq_false_iff.mpr (fun hc => hxb hc)

theorem mem_foldl_insert {α : Type} [LinearOrder α] :
    ∀ (S : List (α × Bool × ℕ)) (A : List ℕ), (∀ e ∈ S, e.2.1 = true) →
      ∀ j, j ∈ S.foldl stepActive A ↔ j ∈ A ∨ ∃ e ∈ S, e.2.2 = j := by
  intro S
  induction S with
  | nil => simp
  | cons e S ih =>
    intro A hS j
    rw [List.foldl_cons]
    rw [stepActive, if_pos (hS e (List.mem_cons_self ..))]
    rw [ih (setInsert e.2.2 A) (fun x hx => hS x (List.mem_cons_of_mem _ hx)) j]
    rw [mem_setInsert]
    simp only [List.mem_cons]
    constructor
    · rintro ((rfl | h) | ⟨x, hx, rfl⟩)
      · exact Or.inr ⟨e, Or.inl rfl, rfl⟩
      · exact Or.inl h
      · exact Or.inr ⟨x, Or.inr hx, rfl⟩
    · rintro (h | ⟨x, rfl | hx, rfl⟩)
      · exact Or.inl (Or.inr h)
      · exact Or.inl (Or.inl rfl)
      · exact Or.inr ⟨x, hx, rfl⟩

theorem pairwise_foldl_insert {α : Type} [LinearOrder α] :
    ∀ (S : List (α × Bool × ℕ)) (A : List ℕ), (∀ e ∈ S, e.2.1 = true) →
      A.Pairwise (· < ·) → (S.foldl stepActive A).Pairwise (· < ·) := by
  intro S
  induction S with
  | nil => exact fun A _ hA => hA
  | cons e S ih =>
    intro A hS hA
    rw [List.foldl_cons, stepActive, if_pos (hS e (List.mem_cons_self ..))]
    exact ih _ (fun x hx => hS x (List.mem_cons_of_mem _ hx))
      (pairwise_setInsert _ _ hA)

theorem mem_foldl_erase {α : Type} [LinearOrder α] :
    ∀ (Ends : List (α × Bool × ℕ)) (A : List ℕ), (∀ e ∈ Ends, e.2.1 = false) →
      A.Pairwise (· < ·) →
      ∀ j, j ∈ Ends.foldl stepActive A ↔ j ∈ A ∧ ∀ e ∈ Ends, e.2.2 ≠ j := by
  intro Ends
  induction Ends with
  | nil => simp
  | cons e Ends ih =>
    intro A hE hA j
    rw [List.foldl_cons, stepActive,
      if_neg (by rw [hE e (List.mem_cons_self ..)]; exact Bool.false_ne_true)]
    have hnd : A.Nodup := hA.imp (fun h => Nat.ne_of_lt h)
    rw [ih (A.erase e.2.2) (fun x hx => hE x (List.mem_cons_of_mem _ hx))
      (List.Pairwise.sublist (List.erase_sublist e.2.2 A) hA) j]
    rw [hnd.mem_erase_iff]
    constructor
    · rintro ⟨⟨hne, hj⟩, hall⟩
      refine ⟨hj, ?_⟩
      intro x hx
      rcases List.mem_cons.mp hx with rfl | hx
      · exact fun hc => hne hc.symm
      · exact hall x hx
    · rintro ⟨hj, hall⟩
      exact ⟨⟨fun hc => hall e (List.mem_cons_self ..) hc.symm, hj⟩,
        fun x hx => hall x (List.mem_cons_of_mem _ hx)⟩

theorem pairwise_foldl_erase {α : Type} [LinearOrder α] :
    ∀ (Ends : List (α × Bool × ℕ)) (A : List ℕ), (∀ e ∈ Ends, e.2.1 = false) →
      A.Pairwise (· < ·) → (Ends.foldl stepActive A).Pairwise (· < ·) := by
  intro Ends
  induction Ends with
  | nil => exact fun A _ hA => hA
  | cons e Ends ih =>
    intro A hE hA
    rw [List.foldl_cons, stepActive,
      if_neg (by rw [hE e (List.mem_cons_self ..)]; exact Bool.false_ne_true)]
    exact ih _ (fun x hx => hE x (List.mem_cons_of_mem _ hx))
      (List.Pairwise.sublist (List.erase_sublist e.2.2 A) hA)

theorem sorted_group_split {α : Type} [LinearOrder α] :
    ∀ (R0 : List (α × Bool × ℕ)) (e0 : α × Bool × ℕ),
      (e0 :: R0).Pairwise (fun a b => evLE a b = true) →
      ∃ G R, e0 :: R0 = G ++ R ∧ G ≠ [] ∧ (∀ e ∈ G, e.1 = e0.1) ∧
        (∀ e ∈ R, e0.1 < e.1) := by
  intro R0
  induction R0 with
  | nil => exact fun e0 _ => ⟨[e0], [], rfl, by simp, by simp, by simp⟩
  | cons e1 R1 ih =>
    intro e0 hp
    have hle01 : evLE e0 e1 = true :=
      (List.pairwise_cons.mp hp).1 e1 (List.mem_cons_self ..)
    by_cases h : e1.1 = e0.1
    · obtain ⟨G1, R, hsplit, hne, htime, hgt⟩ := ih e1 hp.of_cons
      refine ⟨e0 :: G1, R, ?_, by simp, ?_, ?_⟩
      · rw [List.cons_append, ← hsplit]
      · intro x hx
        rcases List.mem_cons.mp hx with rfl | hx
        · rfl
        · rw [htime x hx, h]
      · intro x hx
        rw [← h]
        exact hgt x hx
    · have h01 : e0.1 < e1.1 := by
        rw [evLE, decide_eq_true_iff] at hle01
        rcases hle01 with h' | ⟨h', -⟩
        · exact h'
        · exact absurd h'.symm h
      refine ⟨[e0], e1 :: R1, rfl, by simp, by simp, ?_⟩
      intro x hx
      rcases List.mem_cons.mp hx with rfl | hx
      · exact h01
      · have hle1x := (List.pairwise_cons.mp hp.of_cons).1 x hx
        rw [evLE, decide_eq_true_iff] at hle1x
        rcases hle1x with h' | ⟨h', -⟩
        · exact lt_trans h01 h'
        · rw [← h']
          exact h01

theorem fold_group_mem {α : Type} [LinearOrder α] (G : List (α × Bool × ℕ))
    (A : List ℕ) (t0 : α) (hsort : G.Pairwise (fun a b => evLE a b = true))
    (htime : ∀ e ∈ G, e.1 = t0) (hA : A.Pairwise (· < ·)) :
    (∀ j, j ∈ G.foldl stepActive A ↔
      (j ∈ A ∨ (t0, true, j) ∈ G) ∧ ¬((t0, false, j) ∈ G)) ∧
    (G.foldl stepActive A).Pairwise (· < ·) := by
  obtain ⟨S, Ends, rfl, hS, hE⟩ := starts_then_ends G t0 hsort htime
  have hSp : (S.foldl stepActive A).Pairwise (· < ·) :=
    pairwise_foldl_insert S A hS hA
  rw [List.foldl_append]
  constructor
  · intro j
    rw [mem_foldl_erase Ends _ hE hSp j, mem_foldl_insert S A hS j]
    have h1 : (∃ e ∈ S, e.2.2 = j) ↔ (t0, true, j) ∈ S := by
      constructor
      · rintro ⟨e, he, rfl⟩
        have hb := hS e he
        have ht := htime e (List.mem_append_left _ he)
        obtain ⟨t, b, i⟩ := e
        simp only at hb ht
        rw [hb, ht] at he
        exact he
      · intro h
        exact ⟨(t0, true, j), h, rfl⟩
    have h2 : (∀ e ∈ Ends, e.2.2 ≠ j) ↔ ¬((t0, false, j) ∈ Ends) := by
      constructor
      · intro h hc
        exact h (t0, false, j) hc rfl
      · intro h e he hc
        have hb := hE e he
        have ht := htime e (List.mem_append_right _ he)
        obtain ⟨t, b, i⟩ := e
        simp only at hb ht hc
        rw [hb, ht, hc] at he
        exact h he
    have h3 : (t0, true, j) ∈ S ++ Ends ↔ (t0, true, j) ∈ S := by
      rw [List.mem_append]
      constructor
      · rintro (h | h)
        · exact h
        · have := hE _ h
          simp at this
      · exact Or.inl
    have h4 : (t0, false, j) ∈ S ++ Ends ↔ (t0, false, j) ∈ Ends := by
      rw [List.mem_append]
      constructor
      · rintro (h | h)
        · have := hS _ h
          simp at this
        · exact h
      · exact Or.inr
    rw [h1, h2, h3, h4]
  · exact pairwise_foldl_erase Ends _ hE hSp

theorem fold_group_activeSem {α : Type} [LinearOrder α] (intervals : List (α × α))
    (hlo : ∀ pr ∈ intervals, pr.1 ≤ pr.2) (G : List (α × Bool × ℕ)) (p t0 : α)
    (hp : p < t0) (hsort : G.Pairwise (fun a b => evLE a b = true))
    (htime : ∀ e ∈ G, e.1 = t0)
    (hGmem : ∀ b j, (t0, b, j) ∈ G ↔ (t0, b, j) ∈ mkEvents intervals)
    (hnogap : ∀ t b j, (t, b, j) ∈ mkEvents intervals → ¬(p < t ∧ t < t0)) :
    G.foldl stepActive (activeSem intervals p) = activeSem intervals t0 := by
  obtain ⟨hmem, hpair⟩ :=
    fold_group_mem G (activeSem intervals p) t0 hsort htime
      (pairwise_activeSem intervals p)
  refine strictSorted_eq_of_mem_iff hpair (pairwise_activeSem intervals t0) ?_
  intro j
  rw [hmem j, hGmem, hGmem, mem_activeSem, mem_activeSem, mem_mkEvents, mem_mkEvents]
  cases hj : intervals[j]? with
  | none => simp [hj]
  | some pr =>
    have hse : pr.1 ≤ pr.2 := hlo pr (by
      have := List.getElem?_eq_some_iff.mp hj
      obtain ⟨hlt, heq⟩ := this
      exact heq ▸ List.getElem_mem ..)
    have hs_gap := fun h => hnogap pr.1 true j
      ((mem_mkEvents intervals pr.1 true j).mpr ⟨pr, hj, rfl⟩) h
    have he_gap := fun h => hnogap pr.2 false j
      ((mem_mkEvents intervals pr.2 false j).mpr ⟨pr, hj, rfl⟩) h
    simp only [hj, Option.some.injEq]
    constructor
    · rintro ⟨h1 | ⟨pr2, hpr2, hs⟩, hne⟩
      · obtain ⟨pr2, hpr2, h1⟩ := h1
        obtain rfl := hpr2
        refine ⟨pr, rfl, le_trans h1.1 (le_of_lt hp), ?_⟩
        by_contra hc
        push_neg at hc
        have het0 : pr.2 ≠ t0 := by
          intro hc2
          exact hne ⟨pr, rfl, by simp [hc2]⟩
        exact he_gap ⟨h1.2, lt_of_le_of_ne hc het0⟩
      · obtain rfl := hpr2
        simp only [if_pos trivial] at hs
        refine ⟨pr, rfl, le_of_eq hs, ?_⟩
        have het0 : pr.2 ≠ t0 := by
          intro hc2
          exact hne ⟨pr, rfl, by simp [hc2]⟩
        rw [← hs]
        exact lt_of_le_of_ne hse (fun hc => het0 (hs ▸ hc.symm))
    · rintro ⟨pr2, hpr2, hst0, ht0e⟩
      obtain rfl := hpr2
      constructor
      · by_cases hsp : pr.1 ≤ p
        · exact Or.inl ⟨pr, rfl, hsp, lt_trans hp ht0e⟩
        · push_neg at hsp
          have hst : pr.1 = t0 := by
            by_contra hc
            exact hs_gap ⟨hsp, lt_of_le_of_ne hst0 hc⟩
          exact Or.inr ⟨pr, rfl, by simp [hst]⟩
      · rintro ⟨pr2, hpr2, he⟩
        obtain rfl := hpr2
        simp only [if_neg Bool.false_ne_true] at he
        rw [he] at ht0e
        exact absurd ht0e (lt_irrefl t0)

theorem fold_group_activeSem_init {α : Type} [LinearOrder α]
    (intervals : List (α × α)) (hlo : ∀ pr ∈ intervals, pr.1 ≤ pr.2)
    (G : List (α × Bool × ℕ)) (t0 : α)
    (hsort : G.Pairwise (fun a b => evLE a b = true))
    (htime : ∀ e ∈ G, e.1 = t0)
    (hGmem : ∀ b j, (t0, b, j) ∈ G ↔ (t0, b, j) ∈ mkEvents intervals)
    (hmin : ∀ t b j, (t, b, j) ∈ mkEvents intervals → t0 ≤ t) :
    G.foldl stepActive [] = activeSem intervals t0 := by
  obtain ⟨hmem, hpair⟩ := fold_group_mem G [] t0 hsort htime (by simp)
  refine strictSorted_eq_of_mem_iff hpair (pairwise_activeSem intervals t0) ?_
  intro j
  rw [hmem j, hGmem, hGmem, mem_activeSem, mem_mkEvents, mem_mkEvents]
  cases hj : intervals[j]? with
  | none => simp [hj]
  | some pr =>
    have hse : pr.1 ≤ pr.2 := hlo pr (by
      obtain ⟨hlt, heq⟩ := List.getElem?_eq_some_iff.mp hj
      exact heq ▸ List.getElem_mem ..)
    have hsmin := hmin pr.1 true j ((mem_mkEvents intervals pr.1 true j).mpr ⟨pr, hj, rfl⟩)
    simp only [hj, Option.some.injEq, List.not_mem_nil, false_or]
    constructor
    · rintro ⟨⟨pr2, hpr2, hs⟩, hne⟩
      obtain rfl := hpr2
      simp only [if_pos trivial] at hs
      have het0 : pr.2 ≠ t0 := by
        intro hc2
        exact hne ⟨pr, rfl, by simp [hc2]⟩
      refine ⟨pr, rfl, le_of_eq hs, ?_⟩
      rw [← hs]
      exact lt_of_le_of_ne hse (fun hc => het0 (hs ▸ hc.symm))
    · rintro ⟨pr2, hpr2, hst0, ht0e⟩
      obtain rfl := hpr2
      constructor
      · exact ⟨pr, rfl, by simp [le_antisymm hst0 hsmin]⟩
      · rintro ⟨pr2, hpr2, he⟩
        obtain rfl := hpr2
        simp only [if_neg Bool.false_ne_true] at he
        rw [he] at ht0e
        exact absurd ht0e (lt_irrefl t0)

theorem dedup_const_prefix {α : Type} [DecidableEq α] :
    ∀ (l1 l2 : List α) (t0 : α), l1 ≠ [] → (∀ x ∈ l1, x = t0) → t0 ∉ l2 →
      (l1 ++ l2).dedup = t0 :: l2.dedup := by
  intro l1
  induction l1 with
  | nil => exact fun l2 t0 h _ _ => absurd rfl h
  | cons x l1 ih =>
    intro l2 t0 _ hx ht
    obtain rfl : x = t0 := hx x (List.mem_cons_self ..)
    cases l1 with
    | nil =>
      rw [List.cons_append, List.nil_append, List.dedup_cons_of_not_mem ht]
    | cons y l1 =>
      have hyx : y = x := hx y (by simp)
      rw [List.cons_append, List.dedup_cons_of_mem (by
        rw [List.cons_append, hyx]
        exact List.mem_cons_self ..)]
      exact ih l2 x (by simp) (fun z hz => hx z (List.mem_cons_of_mem _ hz)) ht

theorem sweep_spec_aux {α : Type} [LinearOrder α] (intervals : List (α × α))
    (hlo : ∀ pr ∈ intervals, pr.1 ≤ pr.2) :
    ∀ (N : ℕ) (R : List (α × Bool × ℕ)) (p : α), R.length ≤ N →
      R.Pairwise (fun a b => evLE a b = true) →
      (∀ e ∈ R, p < e.1) →
      (∀ t b j, p < t → ((t, b, j) ∈ R ↔ (t, b, j) ∈ mkEvents intervals)) →
      sweep R (activeSem intervals p) (some p) =
        specFrom intervals (p :: (R.map (fun e => e.1)).dedup) := by
  intro N
  induction N with
  | zero =>
    intro R p hlen _ _ _
    obtain rfl : R = [] := List.length_eq_zero.mp (Nat.le_zero.mp hlen)
    rfl
  | succ N ih =>
    intro R p hlen hsort htgt hinv
    cases hR : R with
    | nil => rfl
    | cons e0 R0 =>
      subst hR
      obtain ⟨G, R2, hsplit, hne, htime, hgt⟩ := sorted_group_split R0 e0 hsort
      have hp : p < e0.1 := htgt e0 (List.mem_cons_self ..)
      have hGsub : G.Sublist (e0 :: R0) := hsplit ▸ (List.sublist_append_left G R2)
      have hR2sub : R2.Sublist (e0 :: R0) := hsplit ▸ (List.sublist_append_right G R2)
      have hGmem : ∀ b j, ((e0.1, b, j) ∈ G ↔ (e0.1, b, j) ∈ mkEvents intervals) := by
        intro b j
        constructor
        · intro h
          exact (hinv e0.1 b j hp).mp (hsplit ▸ List.mem_append_left _ h)
        · intro h
          have := (hinv e0.1 b j hp).mpr h
          rw [hsplit] at this
          rcases List.mem_append.mp this with h2 | h2
          · exact h2
          · exact absurd (hgt _ h2) (lt_irrefl e0.1)
      have hnogap : ∀ t b j, (t, b, j) ∈ mkEvents intervals → ¬(p < t ∧ t < e0.1) := by
        rintro t b j h ⟨h1, h2⟩
        have := (hinv t b j h1).mpr h
        rw [hsplit] at this
        rcases List.mem_append.mp this with h3 | h3
        · have ht3 : t = e0.1 := htime _ h3
          rw [ht3] at h2
          exact absurd h2 (lt_irrefl e0.1)
        · have ht3 : e0.1 < t := hgt _ h3
          exact absurd (lt_trans ht3 h2) (lt_irrefl e0.1)
      rw [hsplit, sweep_group G R2 (activeSem intervals p) p e0.1 htime hne hp]
      rw [fold_group_activeSem intervals hlo G p e0.1 hp
        (List.Pairwise.sublist hGsub hsort) htime hGmem hnogap]
      rw [ih R2 e0.1
        (by
          have h1 : (e0 :: R0).length = G.length + R2.length := by
            rw [hsplit, List.length_append]
          have h2 : 1 ≤ G.length := by
            cases G with
            | nil => exact absurd rfl hne
            | cons _ _ => simp
          simp only [List.length_cons] at hlen h1
          omega)
        (List.Pairwise.sublist hR2sub hsort) hgt
        (by
          intro t b j ht
          constructor
          · intro h
            exact (hinv t b j (lt_trans hp ht)).mp (hsplit ▸ List.mem_append_right _ h)
          · intro h
            have := (hinv t b j (lt_trans hp ht)).mpr h
            rw [hsplit] at this
            rcases List.mem_append.mp this with h2 | h2
            · have ht2 : t = e0.1 := htime _ h2
              rw [ht2] at ht
              exact absurd ht (lt_irrefl e0.1)
            · exact h2)]
      have hded : ((G ++ R2).map (fun e => e.1)).dedup =
          e0.1 :: (R2.map (fun e => e.1)).dedup := by
        rw [List.map_append]
        refine dedup_const_prefix _ _ _ ?_ ?_ ?_
        · cases G with
          | nil => exact absurd rfl hne
          | cons _ _ => simp
        · intro x hx
          obtain ⟨e, he, rfl⟩ := List.mem_map.mp hx
          exact htime e he
        · intro hc
          obtain ⟨e, he, hee⟩ := List.mem_map.mp hc
          rw [← hee] at hgt
          exact absurd (hgt e he) (by rw [hee]; exact fun h => absurd h (lt_irrefl _))
      rw [hded]
      rfl

theorem evLE_trans {α : Type} [LinearOrder α] (a b c : α × Bool × ℕ)
    (h1 : evLE a b = true) (h2 : evLE b c = true) : evLE a c = true := by
  rw [evLE, decide_eq_true_iff] at h1 h2 ⊢
  rcases h1 with h1 | ⟨h1, h1k⟩ <;> rcases h2 with h2 | ⟨h2, h2k⟩
  · exact Or.inl (lt_trans h1 h2)
  · exact Or.inl (h2 ▸ h1)
  · exact Or.inl (h1 ▸ h2)
  · exact Or.inr ⟨h1.trans h2, le_trans h1k h2k⟩

theorem evLE_total {α : Type} [LinearOrder α] (a b : α × Bool × ℕ) :
    (evLE a b || evLE b a) = true := by
  rw [evLE, evLE, Bool.or_eq_true, decide_eq_true_iff, decide_eq_true_iff]
  rcases lt_trichotomy a.1 b.1 with h | h | h
  · exact Or.inl (Or.inl h)
  · rcases le_total (evKey a) (evKey b) with hk | hk
    · exact Or.inl (Or.inr ⟨h, hk⟩)
    · exact Or.inr (Or.inr ⟨h.symm, hk⟩)
  · exact Or.inr (Or.inl h)

theorem map_time_mkEvents {α : Type} (intervals : List (α × α)) :
    (mkEvents intervals).map (fun e => e.1) =
      intervals.flatMap (fun pr => [pr.1, pr.2]) := by
  rw [mkEvents, List.map_flatMap]
  have h : (fun p : ℕ × α × α => List.map (fun e : α × Bool × ℕ => e.1)
      [(p.2.1, true, p.1), (p.2.2, false, p.1)]) =
      (fun p : ℕ × α × α => [p.2.1, p.2.2]) := by
    funext p
    rfl
  rw [h]
  have h2 : intervals.enum.flatMap (fun p => [p.2.1, p.2.2]) =
      (intervals.enum.map Prod.snd).flatMap (fun pr => [pr.1, pr.2]) := by
    rw [List.flatMap_map]
  rw [h2, List.enum_map_snd]

/-- The spec walk emits nothing when no time has two active
intervals. -/
theorem specFrom_nil {α : Type} [LinearOrder α] (intervals : List (α × α))
    (h : ∀ t, (activeSem intervals t).length < 2) :
    ∀ ts, specFrom intervals ts = [] := by
  intro ts
  induction ts with
  | nil => rfl
  | cons t0 ts ih =>
    cases ts with
    | nil => rfl
    | cons t1 ts =>
      rw [specFrom, if_neg (by have := h t0; omega), List.nil_append]
      exact ih

/-- The sweep agrees with the claim's declarative description on
every interval list whose starts precede their ends. -/
theorem find_overlaps_eq_spec {α : Type} [LinearOrder α] (intervals : List (α × α))
    (hlo : ∀ pr ∈ intervals, pr.1 ≤ pr.2) :
    find_overlaps intervals = specOverlaps intervals := by
  rw [find_overlaps, specOverlaps]
  have hperm : ((mkEvents intervals).mergeSort evLE).Perm (mkEvents intervals) :=
    List.mergeSort_perm ..
  have hsorted : ((mkEvents intervals).mergeSort evLE).Pairwise
      (fun a b => evLE a b = true) :=
    List.sorted_mergeSort (fun a b c => evLE_trans a b c) evLE_total _
  have htimes : ((mkEvents intervals).mergeSort evLE).map (fun e => e.1) =
      (intervals.flatMap fun pr => [pr.1, pr.2]).insertionSort (· ≤ ·) := by
    refine @List.eq_of_perm_of_sorted α (· ≤ ·) inferInstance _ _ ?_ ?_ ?_
    · refine (List.Perm.map _ hperm).trans ?_
      rw [map_time_mkEvents]
      exact (List.perm_insertionSort _ _).symm
    · exact List.pairwise_map.mpr (hsorted.imp (fun hab => by
        rw [evLE, decide_eq_true_iff] at hab
        rcases hab with h | ⟨h, -⟩
        · exact le_of_lt h
        · exact le_of_eq h))
    · exact List.sorted_insertionSort _ _
  cases hE : (mkEvents intervals).mergeSort evLE with
  | nil =>
    have ht : eventTimes intervals = [] := by
      rw [hE] at htimes
      rw [eventTimes, ← htimes]
      rfl
    rw [ht]
    rfl
  | cons e0 E0 =>
    obtain ⟨G, R2, hsplit, hne, htime, hgt⟩ := sorted_group_split E0 e0 (hE ▸ hsorted)
    have hmemE : ∀ x : α × Bool × ℕ, x ∈ e0 :: E0 ↔ x ∈ mkEvents intervals :=
      fun x => (hE ▸ hperm).mem_iff
    have hGmem : ∀ b j, ((e0.1, b, j) ∈ G ↔ (e0.1, b, j) ∈ mkEvents intervals) := by
      intro b j
      constructor
      · intro h
        exact (hmemE _).mp (hsplit ▸ List.mem_append_left _ h)
      · intro h
        have := (hmemE _).mpr h
        rw [hsplit] at this
        rcases List.mem_append.mp this with h2 | h2
        · exact h2
        · exact absurd (hgt _ h2) (lt_irrefl e0.1)
    have hmin : ∀ t b j, (t, b, j) ∈ mkEvents intervals → e0.1 ≤ t := by
      intro t b j h
      have := (hmemE _).mpr h
      rw [hsplit] at this
      rcases List.mem_append.mp this with h2 | h2
      · have ht2 : t = e0.1 := htime _ h2
        exact le_of_eq ht2.symm
      · exact le_of_lt (hgt _ h2)
    rw [hsplit, sweep_init G R2 [] e0.1 htime hne]
    rw [fold_group_activeSem_init intervals hlo G e0.1
      (List.Pairwise.sublist (hsplit ▸ List.sublist_append_left G R2) (hE ▸ hsorted))
      htime hGmem hmin]
    rw [sweep_spec_aux intervals hlo R2.length R2 e0.1 le_rfl
      (List.Pairwise.sublist (hsplit ▸ List.sublist_append_right G R2) (hE ▸ hsorted))
      hgt
      (by
        intro t b j ht
        constructor
        · intro h
          exact (hmemE _).mp (hsplit ▸ List.mem_append_right _ h)
        · intro h
          have := (hmemE _).mpr h
          rw [hsplit] at this
          rcases List.mem_append.mp this with h2 | h2
          · have ht2 : t = e0.1 := htime _ h2
            rw [ht2] at ht
            exact absurd ht (lt_irrefl e0.1)
          · exact h2)]
    have hbridge : eventTimes intervals = e0.1 :: (R2.map (fun e => e.1)).dedup := by
      rw [eventTimes, ← htimes, hE, hsplit, List.map_append]
      refine dedup_const_prefix _ _ _ ?_ ?_ ?_
      · cases G with
        | nil => exact absurd rfl hne
        | cons _ _ => simp
      · intro x hx
        obtain ⟨e, he, rfl⟩ := List.mem_map.mp hx
        exact htime e he
      · intro hc
        obtain ⟨e, he, hee⟩ := List.mem_map.mp hc
        have := hgt e he
        rw [hee] at this
        exact absurd this (lt_irrefl e0.1)
    rw [hbridge]

/-- C8: the sweep equals the declarative description (consecutive
boundary times with at least two semantically active intervals, with
their sorted identifier sets, in time order), is empty when no time
has two active intervals, and on A=[0,10], B=[5,15], C=[20,25]
produces exactly the span [5,10] with {A,B} (indices 0 and 1). -/
theorem c8_find_overlaps_spec :
    (∀ {α : Type} [LinearOrder α] (intervals : List (α × α)),
      (∀ pr ∈ intervals, pr.1 ≤ pr.2) →
      find_overlaps intervals = specOverlaps intervals) ∧
    (∀ {α : Type} [LinearOrder α] (intervals : List (α × α)),
      (∀ pr ∈ intervals, pr.1 ≤ pr.2) →
      (∀ t, (activeSem intervals t).length < 2) →
      find_overlaps intervals = []) ∧
    find_overlaps [((0 : ℤ), 10), (5, 15), (20, 25)] = [(5, 10, [0, 1])] := by
  refine ⟨fun intervals h => find_overlaps_eq_spec intervals h, ?_, ?_⟩
  · intro α _ intervals h hact
    rw [find_overlaps_eq_spec intervals h, specOverlaps]
    exact specFrom_nil intervals hact _
  · rw [find_overlaps_eq_spec _ (by decide)]
    decide

theorem c8_find_overlaps_spec_witness :
    find_overlaps [((1 : ℤ), 3), (2, 5), (4, 6)] =
      specOverlaps [((1 : ℤ), 3), (2, 5), (4, 6)] :=
  c8_find_overlaps_spec.1 [((1 : ℤ), 3), (2, 5), (4, 6)] (by decide)
